import Mathlib

/-!
Shallow embedding of the frequency-curve computation engine of
`app/services/analysis_service.py` (class `AnalysisService`, centred on
`compute_frequency_curve`, its helpers `_fit_distribution_mom`,
`_convert_to_python_type`, the module-level `Weibull` plotting-position
function and the bootstrap aggregation pipeline), together with the helper
functions `extract_params` and `validate_agg_func` of `app/utils/helpers.py`.

Modelling conventions:

* Python floats are modelled as exact rationals `ℚ`.  A float value that can
  be NaN or ±Inf is modelled as `Option ℚ` with `none` standing for any
  non-finite value; `np.isfinite x` becomes `Option.isSome`, and a comparison
  against a non-finite value is `false`, matching IEEE comparison semantics
  for NaN and the way the source guards every comparison with `np.isfinite`.
* External numerical routines that are not part of this repository
  (`scipy.stats.<dist>.fit`, `scipy.stats.<dist>.ppf`, `scipy.stats.skew`,
  `np.sqrt`, `np.log`, `np.exp`, `np.pi`, `np.power(10, ·)`, `np.log10`) are
  abstracted into the oracle structure `ExtOps`; every theorem quantifies
  over the oracle, assuming only the properties the surrounding code
  actually relies on.  A failed (`raise`-ing) external fit is `none`.
* The bootstrap iteration results (`_bootstrap_iteration_worker` outputs,
  which depend on `np.random.RandomState` and `scipy` refitting) are passed
  in as a list `rows : List (Option (List (Option ℚ)))`: one entry per
  iteration, `none` for a failed/discarded iteration, and `none` entries
  inside a row for NaN quantiles, in the (arbitrary) completion order of
  `as_completed`.
* Python `sorted` is modelled by `List.insertionSort` (both are stable).
* Python dictionaries keyed by probability values are modelled by
  association lists with `List.lookup`; the pipeline only builds them from
  lists with strictly increasing keys, where first-match and last-match
  semantics agree.
-/

/-- Errors raised by `compute_frequency_curve` as `HTTPException`s, named by
the specification's error taxonomy (§7). -/
inductive AnalysisError where
  | invalidAggFunc
  | unsupportedDistribution
  | invalidMethod
  | emptyAfterFiltering
  | insufficientData (found : Nat)
  | degenerateFit
  deriving Repr, DecidableEq

deriving instance DecidableEq for Except

/-- Quality warnings appended to `quality_warnings`; each constructor models
one of the Vietnamese-language f-string messages of the source, carrying the
numeric payloads that the message interpolates.  `implausibleFit` models the
high-severity message `"CẢNH BÁO NGHIÊM TRỌNG: Phân phối ... KHÔNG phù hợp!"`. -/
inductive QualityWarning where
  | highCv (cv : ℚ)
  | highSkew (cs : ℚ)
  | smallSample (n : Nat)
  | clampedNegatives (count : Nat)
  | implausibleFit (q1pct : ℚ) (qmaxVal : ℚ)
  deriving Repr, DecidableEq

/-- Oracle bundle for all numerical routines external to the repository. -/
structure ExtOps where
  /-- Models `np.sqrt` (applied to sample variances and to the literals 6, 3). -/
  sqrtQ : ℚ → ℚ
  /-- Models `np.log`. -/
  logQ : ℚ → ℚ
  /-- Models `np.exp`. -/
  expQ : ℚ → ℚ
  /-- Models `np.log10`. -/
  log10Q : ℚ → ℚ
  /-- Models `np.power(10.0, ·)`. -/
  pow10Q : ℚ → ℚ
  /-- Models `np.pi`. -/
  piQ : ℚ
  /-- Models `scipy.stats.<dist>.ppf(x, *params)` evaluated at one point;
  `none` models a NaN/Inf result (or a raised exception). -/
  ppf : String → List ℚ → ℚ → Option ℚ
  /-- Models `scipy.stats.<dist>.fit(data)` (maximum likelihood); outer
  `none` models a raised exception, inner `none` a non-finite parameter. -/
  mleFit : String → List ℚ → Option (List (Option ℚ))
  /-- Models `scipy.stats.skew(data, bias=False)`; `none` models NaN. -/
  skew : List ℚ → Option ℚ

/-- Supported distribution identifiers: the keys of the module-level
`distributions` registry. -/
def supportedDistributions : List String :=
  ["gumbel", "genextreme", "genpareto", "expon", "lognorm", "logistic",
   "gamma", "pearson3", "frechet"]

/-- Distributions allow-listed for bootstrap confidence intervals
(`fast_distributions` in `compute_frequency_curve`). -/
def fastDistributions : List String :=
  ["gumbel", "lognorm", "gamma", "logistic", "expon", "pearson3", "frechet",
   "genpareto"]

/-- Aggregation functions accepted by `validate_agg_func`. -/
def validAggFuncs : List String := ["max", "min", "sum", "mean"]

/-- Fitting methods accepted by `compute_frequency_curve`. -/
def validMethods : List String := ["auto", "mom", "mle"]

/-- Model of `validate_agg_func` from `app/utils/helpers.py`. -/
def validateAggFunc (aggFunc : String) : Bool :=
  decide (aggFunc ∈ validAggFuncs)

/-- Standardized parameter dictionary produced by `extract_params`:
`shape` is `None` for two-parameter families, a single value for
three-parameter families, and the leading tuple otherwise. -/
structure ParamsDict where
  shape : Option (List ℚ)
  loc : ℚ
  scale : ℚ
  deriving Repr, DecidableEq

/-- Model of `extract_params` from `app/utils/helpers.py`. -/
def extractParams (params : List ℚ) : ParamsDict :=
  if params.length = 2 then
    { shape := none, loc := params.getD 0 0, scale := params.getD 1 0 }
  else if params.length = 3 then
    { shape := some [params.getD 0 0], loc := params.getD 1 0,
      scale := params.getD 2 0 }
  else
    { shape := some (params.take (params.length - 2)),
      loc := params.getD (params.length - 2) 0,
      scale := params.getD (params.length - 1) 0 }

/-- Sample mean `np.mean`. -/
def meanOf (xs : List ℚ) : ℚ := xs.sum / xs.length

/-- Sample variance `np.var(xs, ddof=1)`. -/
def varOf (xs : List ℚ) : ℚ :=
  ((xs.map (fun x => (x - meanOf xs) ^ 2)).sum) / (xs.length - 1 : ℚ)

/-- Sample standard deviation `np.std(xs, ddof=1)`, via the square-root
oracle. -/
def stdOf (ops : ExtOps) (xs : List ℚ) : ℚ := ops.sqrtQ (varOf xs)

/-- Euler–Mascheroni constant as the literal `0.57722` used by the source. -/
def eulerGamma : ℚ := 57722 / 100000

/-- Model of `AnalysisService._fit_distribution_mom`: closed-form
method-of-moments parameter estimation.  Returns `none` where the source
returns `None` ("not applicable, fall back to MLE"). -/
def fitDistributionMom (ops : ExtOps) (distributionName : String)
    (qmax : List ℚ) : Option (List ℚ) :=
  let meanQ := meanOf qmax
  let stdQ := stdOf ops qmax
  let varQ := varOf qmax
  if distributionName = "gumbel" then
    let scale := stdQ * ops.sqrtQ 6 / ops.piQ
    let loc := meanQ - eulerGamma * scale
    some [loc, scale]
  else if distributionName = "lognorm" then
    let cvSquared := varQ / meanQ ^ 2
    if cvSquared ≤ 0 then
      none
    else
      let s := ops.sqrtQ (ops.logQ (1 + cvSquared))
      let mu := ops.logQ meanQ - s ^ 2 / 2
      some [s, 0, ops.expQ mu]
  else if distributionName = "gamma" then
    if meanQ ≤ 0 ∨ varQ ≤ 0 then
      none
    else
      some [meanQ ^ 2 / varQ, 0, varQ / meanQ]
  else if distributionName = "pearson3" then
    -- the source computes a sample skew and a candidate shape, but every
    -- branch ultimately returns `None` (fall back to MLE)
    none
  else if distributionName = "logistic" then
    let scale := stdQ * ops.sqrtQ 3 / ops.piQ
    some [meanQ, scale]
  else if distributionName = "expon" then
    if meanQ ≤ 0 then none else some [0, meanQ]
  else
    none

/-- Decides whether the method-of-moments path is attempted
(`use_mom` in `compute_frequency_curve`): `auto` uses MOM exactly for
`gumbel`, `mom` always, `mle` never. -/
def useMomFor (method distributionName : String) : Bool :=
  if method = "auto" then distributionName = "gumbel"
  else method = "mom"

/-- Fitting selection and validation, translated from
`compute_frequency_curve` lines 452–484.  The two fit computations are
inputs because both are float/scipy computations whose non-finite outcomes
lie outside the rational idealization: `momResult` is the value of
`self._fit_distribution_mom(...)` (entries `none` modelling non-finite
floats), `mleResult` the value of `dist.fit(Qmax)` (`none` modelling a
raised exception).  If MOM is requested and returns a value, it is used
as-is; only a `None` MOM result falls back to MLE.  The final validation
(`params is None or len(params) == 0`, `any(not np.isfinite(p))`) raises,
which the enclosing handler converts to an HTTP 400 — the `DegenerateFit`
category. -/
def fitSelect (useMom : Bool) (momResult : Option (List (Option ℚ)))
    (mleResult : Option (List (Option ℚ))) :
    Except AnalysisError (List ℚ) :=
  let chosen : Option (List (Option ℚ)) :=
    if useMom then
      match momResult with
      | some ps => some ps
      | none => mleResult
    else mleResult
  match chosen with
  | none => .error .degenerateFit
  | some ps =>
      if ps.length = 0 then .error .degenerateFit
      else if ps.all (·.isSome) then
        .ok (ps.filterMap id)
      else .error .degenerateFit

/-! ### Curve sampler (mixed display scale, `inverse_mixed_scale`) -/

/-- Lower probability bound `min_p = 0.01` (percent). -/
def minP : ℚ := 1 / 100

/-- Upper probability bound `max_p = 99.99` (percent). -/
def maxP : ℚ := 9999 / 100

/-- Transition-zone start in probability space, `transition_start = 5.0`. -/
def transitionStart : ℚ := 5

/-- Transition-zone end in probability space, `transition_end = 25.0`. -/
def transitionEnd : ℚ := 25

/-- Transition-zone start on the display axis, `transition_start_pos = 0.3`. -/
def transitionStartPos : ℚ := 3 / 10

/-- Transition-zone end on the display axis, `transition_end_pos = 0.6`. -/
def transitionEndPos : ℚ := 6 / 10

/-- Hermite blend value `h(s)` of the transition cubic. -/
def hermiteH (m0 m1 s : ℚ) : ℚ :=
  (s ^ 3 - 2 * s ^ 2 + s) * m0 + (-2 * s ^ 3 + 3 * s ^ 2) + (s ^ 3 - s ^ 2) * m1

/-- Derivative `dh/ds` of the transition cubic. -/
def hermiteDH (m0 m1 s : ℚ) : ℚ :=
  (3 * s ^ 2 - 4 * s + 1) * m0 + (-6 * s ^ 2 + 6 * s) + (3 * s ^ 2 - 2 * s) * m1

/-- Clamp to the unit interval, `np.clip(x, 0.0, 1.0)`. -/
def clip01 (x : ℚ) : ℚ := min 1 (max 0 x)

/-- One Newton step of the transition-zone inversion: update only where
`|dh| > 1e-10`, then re-clip into `[0, 1]` (the source clips the whole
array after each update). -/
def newtonStep (m0 m1 t s : ℚ) : ℚ :=
  let dh := hermiteDH m0 m1 s
  let f := hermiteH m0 m1 s - t
  clip01 (if 1 / 10 ^ 10 < |dh| then s - f / dh else s)

/-- End slope `m0` of the transition cubic (from the logarithmic zone). -/
def slopeM0 (ops : ExtOps) : ℚ :=
  let logMin := ops.log10Q minP
  let logMax := ops.log10Q transitionStart
  let logDerivative :=
    transitionStartPos / ((transitionStart * ops.logQ 10) * (logMax - logMin))
  logDerivative * (transitionEnd - transitionStart) /
    (transitionEndPos - transitionStartPos)

/-- End slope `m1` of the transition cubic (from the linear zone). -/
def slopeM1 : ℚ :=
  let linearDerivative := (1 - transitionEndPos) / (maxP - transitionEnd)
  linearDerivative * (transitionEnd - transitionStart) /
    (transitionEndPos - transitionStartPos)

/-- Model of `inverse_mixed_scale` for a single display position: closed
form in the logarithmic and linear zones, 15 Newton iterations on the
Hermite cubic in the transition zone. -/
def inverseMixedScale (ops : ExtOps) (x : ℚ) : ℚ :=
  let xc := clip01 x
  if xc ≤ transitionStartPos then
    let t := xc / transitionStartPos
    let logMin := ops.log10Q minP
    let logMax := ops.log10Q transitionStart
    ops.pow10Q (logMin + t * (logMax - logMin))
  else if transitionEndPos ≤ xc then
    let t := (xc - transitionEndPos) / (1 - transitionEndPos)
    transitionEnd + t * (maxP - transitionEnd)
  else
    let t := clip01 ((xc - transitionStartPos) /
      (transitionEndPos - transitionStartPos))
    let m0 := slopeM0 ops
    let s := (newtonStep m0 slopeM1 t)^[15] t
    transitionStart + s * (transitionEnd - transitionStart)

/-- Number of curve points, `num_points = 600`. -/
def numPoints : Nat := 600

/-- Display-axis positions `np.linspace(0.0, 1.0, num=600)`. -/
def mixedScalePositions : List ℚ :=
  (List.range numPoints).map (fun (i : Nat) => (i : ℚ) / (numPoints - 1 : ℚ))

/-- Tail of the near-duplicate mask: keep an element exactly when its
difference from its immediate predecessor in the (sorted) input exceeds
`1e-6`; the predecessor advances whether or not the element is kept,
matching `np.diff` against consecutive array entries. -/
def dedupTolGo (prev : ℚ) : List ℚ → List ℚ
  | [] => []
  | x :: xs =>
      if 1 / 10 ^ 6 < x - prev then x :: dedupTolGo x xs else dedupTolGo x xs

/-- Keep the head of a sorted list and every element whose difference from
its predecessor in the sorted list exceeds `1e-6`
(`unique_mask = np.concatenate(([True], np.diff(p) > 1e-6))`). -/
def dedupTol : List ℚ → List ℚ
  | [] => []
  | a :: rest => a :: dedupTolGo a rest

/-- Full sampled-probability pipeline of `compute_frequency_curve`
(lines 576–591): generate positions, invert the mixed scale, clip into
`[min_p, max_p]`, sort ascending, and drop near-duplicates. -/
def pPercentFixedOf (ops : ExtOps) : List ℚ :=
  let raw := mixedScalePositions.map (inverseMixedScale ops)
  let clipped := raw.map (fun p => min maxP (max minP p))
  dedupTol (clipped.insertionSort (· ≤ ·))

/-! ### Theoretical curve and empirical points -/

/-- Gumbel frequency-factor quantile `Q = mean + std * K(p)` of the
FFC-2008 direct formula, with `K = (y - γ)·√6/π` and reduced variate
`y = -ln(-ln(1 - p))`. -/
def gumbelDirectQ (ops : ExtOps) (meanQ stdQ p : ℚ) : ℚ :=
  let y := -ops.logQ (-ops.logQ (1 - p))
  let k := (y - eulerGamma) * ops.sqrtQ 6 / ops.piQ
  meanQ + stdQ * k

/-- Heuristic check whether the fitted Gumbel parameters coincide with the
method-of-moments solution (reconstruct mean/std from `(loc, scale)` and
compare within `1e-6`). -/
def useDirectFormula (ops : ExtOps) (params : List ℚ) (meanQ stdQ : ℚ) :
    Bool :=
  if params.length = 2 then
    let locFitted := params.getD 0 0
    let scaleFitted := params.getD 1 0
    let stdFromParams := scaleFitted * ops.piQ / ops.sqrtQ 6
    let meanFromParams := locFitted + scaleFitted * eulerGamma
    decide (|meanFromParams - meanQ| < 1 / 10 ^ 6 ∧
      |stdFromParams - stdQ| < 1 / 10 ^ 6)
  else false

/-- Theoretical quantiles paired with their probabilities, after the
branch-specific validity filtering of lines 600–673.  Returns the filtered
`(p_percent_fixed, Q_theoretical)` arrays as a list of pairs; a `none`
quantile models NaN (only producible on the Gumbel direct-formula path,
where invalid probabilities are set to NaN rather than filtered). -/
def theoreticalPairs (ops : ExtOps) (distributionName : String)
    (params : List ℚ) (meanQ stdQ : ℚ) (pPercent : List ℚ) :
    List (ℚ × Option ℚ) :=
  let pPairs := pPercent.map (fun p => (p, p / 100))
  if distributionName = "gumbel" then
    if useDirectFormula ops params meanQ stdQ then
      pPairs.map (fun pp =>
        (pp.1, if 0 < pp.2 ∧ pp.2 < 1 then
          some (gumbelDirectQ ops meanQ stdQ pp.2) else none))
    else
      (pPairs.map (fun pp => (pp.1, ops.ppf "gumbel" params (1 - pp.2)))).filter
        (fun pq => match pq.2 with
          | some q => decide (0 < q)
          | none => false)
  else
    (pPairs.map (fun pp => (pp.1, ops.ppf distributionName params (1 - pp.2)))).filter
      (fun pq => match pq.2 with
        | some q => decide (0 < q ∧ q < 10 ^ 12)
        | none => false)

/-- Curve-point construction loop of lines 684–698: skip non-finite or
astronomically large quantiles, clamp negatives to zero and count them. -/
def buildCurve (pairs : List (ℚ × Option ℚ)) : List (ℚ × ℚ) × Nat :=
  pairs.foldr
    (fun pq acc =>
      match pq.2 with
      | none => acc
      | some q =>
          if 10 ^ 12 ≤ q then acc
          else ((pq.1, max 0 q) :: acc.1, (if q < 0 then 1 else 0) + acc.2))
    ([], 0)

/-- Final theoretical curve: built points sorted ascending by `P_percent`
(Python `sorted` is stable; modelled by stable insertion sort). -/
def theoreticalCurveOf (pairs : List (ℚ × Option ℚ)) : List (ℚ × ℚ) :=
  (buildCurve pairs).1.insertionSort (fun a b => a.1 ≤ b.1)

/-- Weibull plotting positions `P(%) = 100·i/(n+1)`, `i = 1..n`, as produced
by both the module-level `Weibull` helper and the inline computation of
`compute_frequency_curve` (they depend only on `n`). -/
def weibullPositions (n : Nat) : List ℚ :=
  (List.range n).map (fun (i : Nat) => ((i : ℚ) + 1) / ((n : ℚ) + 1) * 100)

/-- Values sorted descending, `sorted(Qmax, reverse=True)`. -/
def sortDesc (xs : List ℚ) : List ℚ :=
  xs.insertionSort (fun a b => b ≤ a)

/-- Empirical points: ascending Weibull probabilities paired with the
values sorted descending. -/
def empiricalPointsOf (xs : List ℚ) : List (ℚ × ℚ) :=
  List.zip (weibullPositions xs.length) (sortDesc xs)

/-! ### Bootstrap confidence-interval pipeline -/

/-- Column `j` of the stacked bootstrap results, with NaN entries dropped
(the percentile aggregation is NaN-ignoring). -/
def columnOf (rowsOk : List (List (Option ℚ))) (j : Nat) : List ℚ :=
  rowsOk.filterMap (fun r => r.getD j none)

/-- NaN-ignoring percentile with linear interpolation,
`np.nanpercentile(·, q, method='linear')` on one column; `none` when the
column is empty (numpy yields NaN there). -/
def percentileNan (q : ℚ) (col : List ℚ) : Option ℚ :=
  if col.isEmpty then none
  else
    let s := col.insertionSort (· ≤ ·)
    let m := s.length
    let rank := ((m : ℚ) - 1) * q / 100
    let i := (⌊rank⌋).toNat
    let lo := s.getD i 0
    let hi := s.getD (i + 1) lo
    some (lo + (rank - (i : ℚ)) * (hi - lo))

/-- Width-floor correction for Gumbel (FFC-2008 minimum 30% relative band
width), lines 936–975, for one position. -/
def adjustGumbelPair (theo lowv upv : Option ℚ) : Option ℚ × Option ℚ :=
  match theo, lowv, upv with
  | some t, some lv, some uv =>
      if 0 < t ∧ (uv - lv) / t * 100 < 30 then
        let l1 := if t * (85 / 100) < lv then t * (85 / 100) else lv
        let u1 := if uv < t * (115 / 100) then t * (115 / 100) else uv
        if u1 - l1 < t * (30 / 100) then
          let c := (l1 + u1) / 2
          (some (c - t * (30 / 100) / 2), some (c + t * (30 / 100) / 2))
        else (some l1, some u1)
      else (some lv, some uv)
  | _, _, _ => (lowv, upv)

/-- Inversion-correction pass of lines 980–987: swap the bounds at a
position where `lower > upper` (comparisons with NaN are false). -/
def swapPair (lowv upv : Option ℚ) : Option ℚ × Option ℚ :=
  match lowv, upv with
  | some lv, some uv => if uv < lv then (upv, lowv) else (lowv, upv)
  | _, _ => (lowv, upv)

/-- Zone-dependent relative-width ceiling (`max_width_factor`). -/
def zoneWidthFactor (minPe maxPe p : ℚ) : ℚ :=
  if minPe ≤ p ∧ p ≤ maxPe then 5 / 2
  else if (minPe * (1 / 2) ≤ p ∧ p < minPe) ∨ (maxPe < p ∧ p ≤ maxPe * (3 / 2)) then 6
  else if p < minPe * (1 / 2) ∨ maxPe * (3 / 2) < p then 8
  else 1

/-- Zone-dependent upper-outlier ceiling (`max_upper_factor`). -/
def zoneUpperFactor (minPe maxPe p : ℚ) : ℚ :=
  if minPe ≤ p ∧ p ≤ maxPe then 4
  else if (minPe * (1 / 2) ≤ p ∧ p < minPe) ∨ (maxPe < p ∧ p ≤ maxPe * (3 / 2)) then 8
  else if p < minPe * (1 / 2) ∨ maxPe * (3 / 2) < p then 10
  else 1

/-- Distribution-specific floor for the lower bound relative to the
theoretical value (`min_lower_factor`). -/
def minLowerFactor (distributionName : String) : ℚ :=
  if distributionName = "gumbel" then 1 / 50
  else if distributionName = "lognorm" then 1 / 20
  else 3 / 100

/-- Validity of one confidence-band position, combining the base
finiteness mask of line 992 with the width/outlier filtering loop of
lines 1033–1055. -/
def ciValidAt (distributionName : String) (minPe maxPe p : ℚ)
    (theo lowv upv : Option ℚ) : Bool :=
  match lowv, upv with
  | some lv, some uv =>
      match theo with
      | some t =>
          if 0 < t then
            if zoneWidthFactor minPe maxPe p * 100 < (uv - lv) / t * 100 then false
            else if t * zoneUpperFactor minPe maxPe p < uv then false
            else if lv < t * minLowerFactor distributionName then false
            else true
          else true
      | none => true
  | _, _ => false

/-- Remove exact duplicates from a sorted list (`set` then `sorted`). -/
def dedupSorted {α : Type} [DecidableEq α] : List α → List α
  | [] => []
  | [a] => [a]
  | a :: b :: rest =>
      if a = b then dedupSorted (b :: rest) else a :: dedupSorted (b :: rest)

/-- Python `sorted(set(l))` for a linearly ordered type. -/
def sortedSet {α : Type} [LinearOrder α] [DecidableEq α] (l : List α) :
    List α :=
  dedupSorted (l.insertionSort (· ≤ ·))

/-- Python `l[::k]`: every `k`-th element of a list. -/
def everyNth {α : Type} (k : Nat) (l : List α) : List α :=
  (l.enum.filter (fun e => e.1 % k = 0)).map Prod.snd

/-- Adaptive compaction index selection of lines 1124–1162: keep about 150
points in the interpolation zone, every 2nd point in near extrapolation,
every 3rd in far extrapolation, always retaining the first and last point. -/
def compactionIndices (minPe maxPe : ℚ) (pArray : List ℚ) : List Nat :=
  let len := pArray.length
  let isInterp := fun p => minPe ≤ p ∧ p ≤ maxPe
  let isNear := fun p =>
    (minPe * (1 / 2) ≤ p ∧ p < minPe) ∨ (maxPe < p ∧ p ≤ maxPe * (3 / 2))
  let isFar := fun p => p < minPe * (1 / 2) ∨ maxPe * (3 / 2) < p
  let interpIdx := (List.range len).filter (fun i => isInterp (pArray.getD i 0))
  let sel1 :=
    if 150 < interpIdx.length then
      everyNth (max 1 (interpIdx.length / 150)) interpIdx
    else interpIdx
  let sel2 := everyNth 2 ((List.range len).filter (fun i => isNear (pArray.getD i 0)))
  let sel3 := everyNth 3 ((List.range len).filter (fun i => isFar (pArray.getD i 0)))
  let selected := sortedSet (sel1 ++ sel2 ++ sel3)
  sortedSet ((if 0 ∈ selected then [] else [0]) ++ selected ++
    (if len - 1 ∈ selected then [] else [len - 1]))

/-- Piecewise-linear interpolation with end-segment extrapolation,
`scipy.interpolate.interp1d(kind='linear', fill_value='extrapolate')`. -/
def interpLin : List (ℚ × ℚ) → ℚ → ℚ
  | [], _ => 0
  | [k1], _ => k1.2
  | k1 :: k2 :: rest, x =>
      if x ≤ k2.1 ∨ rest = [] then
        k1.2 + (x - k1.1) * (k2.2 - k1.2) / (k2.1 - k1.1)
      else interpLin (k2 :: rest) x

/-- Model of `np.arange(start, stop, step)` for positive `step`. -/
def arangeQ (start stop step : ℚ) : List ℚ :=
  (List.range (⌈(stop - start) / step⌉).toNat).map
    (fun (i : Nat) => start + (i : ℚ) * step)

/-- A confidence band: the `lower` and `upper` point sequences. -/
abbrev Band := List (ℚ × ℚ) × List (ℚ × ℚ)

/-- Probability keys present in both the lower and upper point lists,
`sorted(set(lower_dict.keys()) & set(upper_dict.keys()))`. -/
def gapCommonOf (finalLower finalUpper : List (ℚ × ℚ)) : List ℚ :=
  sortedSet ((finalLower.map Prod.fst).filter
    (fun p => p ∈ finalUpper.map Prod.fst))

/-- Interpolation triples `(x, lower(x), upper(x))` on the 1-point grid
from the first to the last common position. -/
def gridTriplesOf (commonP : List ℚ) (finalLower finalUpper : List (ℚ × ℚ)) :
    List (ℚ × ℚ × ℚ) :=
  (arangeQ commonP.headI (commonP.getLastD 0 + 1) 1).map (fun x =>
    (x,
     interpLin (commonP.map (fun p => (p, (finalLower.lookup p).getD 0))) x,
     interpLin (commonP.map (fun p => (p, (finalUpper.lookup p).getD 0))) x))

/-- Interpolated lower points surviving the `lower < upper ∧ lower ≥ 0`
filter. -/
def gridLowerOf (commonP : List ℚ) (finalLower finalUpper : List (ℚ × ℚ)) :
    List (ℚ × ℚ) :=
  (gridTriplesOf commonP finalLower finalUpper).filterMap (fun t =>
    if t.2.1 < t.2.2 ∧ 0 ≤ t.2.1 then some (t.1, t.2.1) else none)

/-- Interpolated upper points surviving the `lower < upper ∧ lower ≥ 0`
filter. -/
def gridUpperOf (commonP : List ℚ) (finalLower finalUpper : List (ℚ × ℚ)) :
    List (ℚ × ℚ) :=
  (gridTriplesOf commonP finalLower finalUpper).filterMap (fun t =>
    if t.2.1 < t.2.2 ∧ 0 ≤ t.2.1 then some (t.1, t.2.2) else none)

/-- Band rebuilt from the interpolation grid (the big-gap branch,
lines 1196–1246). -/
def gapGridBand (commonP : List ℚ) (finalLower finalUpper : List (ℚ × ℚ)) :
    Band :=
  ((sortedSet (((gridLowerOf commonP finalLower finalUpper).map
      Prod.fst).filter (fun p =>
        p ∈ (gridUpperOf commonP finalLower finalUpper).map Prod.fst))).map
    (fun p =>
      (p, ((gridLowerOf commonP finalLower finalUpper).lookup p).getD 0)),
   (sortedSet (((gridLowerOf commonP finalLower finalUpper).map
      Prod.fst).filter (fun p =>
        p ∈ (gridUpperOf commonP finalLower finalUpper).map Prod.fst))).map
    (fun p =>
      (p, ((gridUpperOf commonP finalLower finalUpper).lookup p).getD 0)))

/-- Band rebuilt from the original points when no gap exceeds the
threshold (lines 1254–1259). -/
def gapNoGapBand (commonP : List ℚ) (finalLower finalUpper : List (ℚ × ℚ)) :
    Band :=
  (commonP.map (fun p => (p, (finalLower.lookup p).getD 0)),
   commonP.map (fun p => (p, (finalUpper.lookup p).getD 0)))

/-- Band rebuilt when too few common positions exist (lines 1260–1265). -/
def gapFewBand (commonP : List ℚ) (finalLower finalUpper : List (ℚ × ℚ)) :
    Band :=
  (commonP.filterMap (fun p =>
     if p ∈ finalUpper.map Prod.fst then
       some (p, (finalLower.lookup p).getD 0) else none),
   commonP.filterMap (fun p =>
     if p ∈ finalUpper.map Prod.fst then
       some (p, (finalUpper.lookup p).getD 0) else none))

/-- Gap-filling interpolation stage of lines 1179–1265: if the retained
probability positions have a gap above 5 (percentage points), rebuild the
band on a 1-point grid by linear interpolation, keeping only interpolated
positions with `lower < upper` and `lower ≥ 0`. -/
def gapInterpolate (finalLower finalUpper : List (ℚ × ℚ)) : Band :=
  if 2 < finalLower.length ∧ 2 < finalUpper.length then
    if 2 < (gapCommonOf finalLower finalUpper).length then
      if ((gapCommonOf finalLower finalUpper).zip
          (gapCommonOf finalLower finalUpper).tail).any
          (fun pq => 5 < pq.2 - pq.1) then
        gapGridBand (gapCommonOf finalLower finalUpper) finalLower finalUpper
      else
        gapNoGapBand (gapCommonOf finalLower finalUpper) finalLower
          finalUpper
    else
      gapFewBand (gapCommonOf finalLower finalUpper) finalLower finalUpper
  else (finalLower, finalUpper)

/-- Probability positions restricted to the CI range
`[ci_min_p, ci_max_p] = [0.01, 99.99]` (line 806). -/
def ciPciOf (pPercentFixed : List ℚ) : List ℚ :=
  pPercentFixed.filter (fun p => 1 / 100 ≤ p ∧ p ≤ 9999 / 100)

/-- Theoretical reference quantiles at the restricted positions,
`Q_theoretical_for_ci = dist.ppf(1 - p_values_for_ci, *params)`; the
source computes the same expression twice (for the workers and for the
validation), both modelled by this one oracle call. -/
def ciTheoOf (ops : ExtOps) (distributionName : String) (params : List ℚ)
    (pci : List ℚ) : List (Option ℚ) :=
  (List.range pci.length).map (fun i =>
    ops.ppf distributionName params (1 - pci.getD i 0 / 100))

/-- Lower percentile aggregation `np.nanpercentile(..., 2.5, axis=0)`. -/
def ciLowerOf (pci : List ℚ) (rowsOk : List (List (Option ℚ))) :
    List (Option ℚ) :=
  (List.range pci.length).map (fun j =>
    percentileNan (5 / 2) (columnOf rowsOk j))

/-- Upper percentile aggregation `np.nanpercentile(..., 97.5, axis=0)`. -/
def ciUpperOf (pci : List ℚ) (rowsOk : List (List (Option ℚ))) :
    List (Option ℚ) :=
  (List.range pci.length).map (fun j =>
    percentileNan (195 / 2) (columnOf rowsOk j))

/-- Bounds after the Gumbel width-floor correction (lines 936–975) and
the swap pass (lines 980–987). -/
def ciSwappedOf (ops : ExtOps) (distributionName : String) (params : List ℚ)
    (pci : List ℚ) (rowsOk : List (List (Option ℚ))) :
    List (Option ℚ × Option ℚ) :=
  let k := pci.length
  let theo := ciTheoOf ops distributionName params pci
  let lower0 := ciLowerOf pci rowsOk
  let upper0 := ciUpperOf pci rowsOk
  let adjusted := (List.range k).map (fun i =>
    if distributionName = "gumbel" then
      adjustGumbelPair (theo.getD i none) (lower0.getD i none)
        (upper0.getD i none)
    else (lower0.getD i none, upper0.getD i none))
  (List.range k).map (fun i =>
    swapPair (adjusted.getD i (none, none)).1 (adjusted.getD i (none, none)).2)

/-- Validity mask combining the finiteness mask (line 992) with the
width/outlier filtering loop (lines 1033–1055). -/
def ciValidMaskOf (ops : ExtOps) (distributionName : String)
    (params : List ℚ) (qmaxF : List ℚ) (pci : List ℚ)
    (rowsOk : List (List (Option ℚ))) : List Bool :=
  let pEmp := weibullPositions qmaxF.length
  let minPe := pEmp.min?.getD 0
  let maxPe := pEmp.max?.getD 0
  let theo := ciTheoOf ops distributionName params pci
  let swapped := ciSwappedOf ops distributionName params pci rowsOk
  (List.range pci.length).map (fun i =>
    ciValidAt distributionName minPe maxPe (pci.getD i 0) (theo.getD i none)
      (swapped.getD i (none, none)).1 (swapped.getD i (none, none)).2)

/-- Aggregation and assembly after a non-empty bootstrap: percentile
bounds, corrections, filtering, the 30% usability check (line 1076),
point-list construction, matching of lower/upper keys with the safety
filter (lines 1099–1119), adaptive compaction (lines 1121–1173) and gap
interpolation, producing the band or `none`. -/
def ciAssembleOf (ops : ExtOps) (distributionName : String) (params : List ℚ)
    (qmaxF : List ℚ) (pci : List ℚ) (rowsOk : List (List (Option ℚ))) :
    Band :=
  let k := pci.length
  let pEmp := weibullPositions qmaxF.length
  let minPe := pEmp.min?.getD 0
  let maxPe := pEmp.max?.getD 0
  let swapped := ciSwappedOf ops distributionName params pci rowsOk
  let validMask := ciValidMaskOf ops distributionName params qmaxF pci rowsOk
  let lowerPoints := ((List.range k).filterMap (fun i =>
    if validMask.getD i false then
      ((swapped.getD i (none, none)).1).map (fun lv => (pci.getD i 0, lv))
    else none)).insertionSort (fun a b => a.1 ≤ b.1)
  let upperPoints := ((List.range k).filterMap (fun i =>
    if validMask.getD i false then
      ((swapped.getD i (none, none)).2).map (fun uv => (pci.getD i 0, uv))
    else none)).insertionSort (fun a b => a.1 ≤ b.1)
  let commonP := sortedSet ((lowerPoints.map Prod.fst).filter
    (fun p => p ∈ upperPoints.map Prod.fst))
  let tempTriples := commonP.filterMap (fun p =>
    match lowerPoints.lookup p, upperPoints.lookup p with
    | some lq, some uq =>
        if lq < uq ∧ 0 ≤ lq then some (p, lq, uq) else none
    | _, _ => none)
  let tempLower := tempTriples.map (fun t => (t.1, t.2.1))
  let tempUpper := tempTriples.map (fun t => (t.1, t.2.2))
  let compacted :=
    if 300 < tempLower.length then
      let sel := compactionIndices minPe maxPe (tempLower.map Prod.fst)
      (sel.filterMap (fun i => tempLower.get? i),
       sel.filterMap (fun i => tempUpper.get? i))
    else (tempLower, tempUpper)
  let finalLower := compacted.1.insertionSort (fun a b => a.1 ≤ b.1)
  let finalUpper := compacted.2.insertionSort (fun a b => a.1 ≤ b.1)
  gapInterpolate finalLower finalUpper

/-- Usability gate on the assembled band: the 30% validity check of
line 1076. -/
def ciBandOf (ops : ExtOps) (distributionName : String) (params : List ℚ)
    (qmaxF : List ℚ) (pci : List ℚ) (rowsOk : List (List (Option ℚ))) :
    Option Band :=
  let validMask := ciValidMaskOf ops distributionName params qmaxF pci rowsOk
  let validCount := (validMask.filter id).length
  if (validCount : ℚ) < (pci.length : ℚ) * (3 / 10) then none
  else some (ciAssembleOf ops distributionName params qmaxF pci rowsOk)

/-- Bootstrap confidence-interval section of `compute_frequency_curve`
(lines 788–1332), producing `confidence_intervals` or `none`.  The
`pPercentFixed` argument is the probability array after the theoretical
filtering, and `rows` holds the worker results in completion order.  An
all-failed bootstrap leaves `Q_theoretical_for_ci` unbound in the source,
raising a `NameError` that the enclosing handler converts to
`confidence_intervals = None`; the model returns `none` directly. -/
def ciSection (ops : ExtOps) (distributionName : String) (params : List ℚ)
    (qmaxF : List ℚ) (pPercentFixed : List ℚ)
    (rows : List (Option (List (Option ℚ)))) : Option Band :=
  let pci := ciPciOf pPercentFixed
  if pci.length < 5 then none
  else
    let rowsOk := rows.filterMap id
    if rowsOk.isEmpty then none
    else ciBandOf ops distributionName params qmaxF pci rowsOk

/-! ### Statistics, warnings and the orchestrator -/

/-- Python `round(x, k)` (round half to even), exact on rationals. -/
def pyRoundTo (k : Nat) (x : ℚ) : ℚ :=
  let y := x * 10 ^ k
  let fl := (⌊y⌋ : ℚ)
  let r : ℚ :=
    if y - fl < 1 / 2 then fl
    else if 1 / 2 < y - fl then fl + 1
    else if (⌊y⌋ % 2 = 0) then fl else fl + 1
  r / 10 ^ k

/-- Summary statistics block of the result (`statistics` key); `cs` is
`none` when the sample skewness is NaN (converted to JSON null). -/
structure FreqStats where
  mean : ℚ
  std : ℚ
  cv : ℚ
  cs : Option ℚ
  n : Nat
  deriving Repr, DecidableEq

/-- The full result dictionary of `compute_frequency_curve`. -/
structure FreqResult where
  theoretical_curve : List (ℚ × ℚ)
  empirical_points : List (ℚ × ℚ)
  confidence_intervals : Option Band
  statistics : FreqStats
  parameters : ParamsDict
  distribution : String
  quality_warnings : List QualityWarning
  deriving Repr, DecidableEq

/-- Either the full result or the degenerate partial dictionary
`{"theoretical_curve": [], "empirical_points": []}` returned when the
loaded data frame aggregates to an empty array (line 420–422). -/
inductive FreqOut where
  | empty
  | full (r : FreqResult)
  deriving Repr, DecidableEq

/-- Quality-warning assembly of lines 742–773, in source order: high
variability, strong skew, small sample, clamped negatives, then the
goodness-of-fit sanity check (`Q(P=1%)` must exceed the observed maximum;
checked only when `Q_1pct` is finite and below `10 × Q_max`). -/
def qualityWarningsOf (cv : ℚ) (cs : Option ℚ) (n : Nat) (numClamped : Nat)
    (q1pct : Option ℚ) (qmaxVal : ℚ) : List QualityWarning :=
  (if 1 < cv then [.highCv cv] else []) ++
  (match cs with
   | some c => if 5 / 2 < |c| then [.highSkew c] else []
   | none => []) ++
  (if n < 30 then [.smallSample n] else []) ++
  (if 0 < numClamped then [.clampedNegatives numClamped] else []) ++
  (match q1pct with
   | some v => if v < qmaxVal * 10 ∧ v < qmaxVal then
       [.implausibleFit v qmaxVal] else []
   | none => [])

/-- Model of `AnalysisService.compute_frequency_curve`.  The `series`
argument is the year-aggregated value sequence delivered by the data
collaborator after `pd.to_numeric(..., errors='coerce')`, with `none` for
non-finite entries; `rows` are the bootstrap worker results (see module
docstring).  Validation order, filtering, fitting with MOM/MLE selection,
curve construction, statistics, warnings and the confidence-interval gate
follow the source line-for-line. -/
def fullResultOf (ops : ExtOps) (distributionName : String)
    (qmaxF : List ℚ) (params : List ℚ)
    (rows : List (Option (List (Option ℚ)))) : FreqResult :=
  let pPercent := pPercentFixedOf ops
  let meanQ := meanOf qmaxF
  let stdQ := stdOf ops qmaxF
  let pairs :=
    theoreticalPairs ops distributionName params meanQ stdQ pPercent
  let curve := theoreticalCurveOf pairs
  let numClamped := (buildCurve pairs).2
  let emp := empiricalPointsOf qmaxF
  let n := qmaxF.length
  let cv := if meanQ ≠ 0 then stdQ / meanQ else 0
  let cs := ops.skew qmaxF
  let q1pct := ops.ppf distributionName params (1 - 1 / 100)
  let qmaxVal := qmaxF.max?.getD 0
  let warnings := qualityWarningsOf cv cs n numClamped q1pct qmaxVal
  let allowCi := 20 ≤ n ∧ distributionName ∈ fastDistributions
  let ci :=
    if allowCi then
      ciSection ops distributionName params qmaxF (pairs.map Prod.fst) rows
    else none
  { theoretical_curve := curve
    empirical_points := emp
    confidence_intervals := ci
    statistics :=
      { mean := pyRoundTo 2 meanQ
        std := pyRoundTo 2 stdQ
        cv := pyRoundTo 3 cv
        cs := cs.map (pyRoundTo 3)
        n := n }
    parameters := extractParams params
    distribution := distributionName
    quality_warnings := warnings }

def computeFrequencyCurve (ops : ExtOps) (series : List (Option ℚ))
    (distributionName aggFunc method : String)
    (rows : List (Option (List (Option ℚ)))) :
    Except AnalysisError FreqOut :=
  if ¬ validateAggFunc aggFunc then .error .invalidAggFunc
  else if distributionName ∉ supportedDistributions then
    .error .unsupportedDistribution
  else if method ∉ validMethods then .error .invalidMethod
  else
    let qmaxRaw := series.filterMap id
    if qmaxRaw.isEmpty then .ok .empty
    else
      let qmaxF := qmaxRaw.filter (fun q => 0 < q)
      if qmaxF.isEmpty then .error .emptyAfterFiltering
      else if qmaxF.length < 3 then .error (.insufficientData qmaxF.length)
      else
        let useMom := useMomFor method distributionName
        let momResult :=
          (fitDistributionMom ops distributionName qmaxF).map (List.map some)
        match fitSelect useMom momResult (ops.mleFit distributionName qmaxF) with
        | .error e => .error e
        | .ok params =>
            .ok (.full (fullResultOf ops distributionName qmaxF params rows))

/-! ### Python value trees and `_convert_to_python_type` -/

/-- Python values as they appear in the returned structure: numbers
(`pyNan` / `pyInf` stand for any non-finite float, numpy scalars are
value-wise identified with their native counterparts), `None`, strings,
lists (also modelling numpy arrays and tuples) and string-keyed dicts. -/
inductive PyVal where
  | pyInt (n : ℤ)
  | pyFloat (q : ℚ)
  | pyNan
  | pyInf
  | pyNone
  | pyStr (s : String)
  | pyList (l : List PyVal)
  | pyDict (l : List (String × PyVal))

/-- Model of `AnalysisService._convert_to_python_type`: recursively map
NaN and ±Inf to `None`, arrays/lists/tuples to lists, dicts to dicts, and
leave finite numbers, strings and `None` unchanged. -/
def convertToPythonType : PyVal → PyVal
  | .pyInt n => .pyInt n
  | .pyFloat q => .pyFloat q
  | .pyNan => .pyNone
  | .pyInf => .pyNone
  | .pyNone => .pyNone
  | .pyStr s => .pyStr s
  | .pyList l => .pyList (l.attach.map (fun x => convertToPythonType x.1))
  | .pyDict l => .pyDict (l.attach.map (fun x => (x.1.1, convertToPythonType x.1.2)))
decreasing_by
  all_goals simp_wf
  · have := List.sizeOf_lt_of_mem x.2
    omega
  · have := List.sizeOf_lt_of_mem x.2
    cases hx : x.1 with
    | mk a b => rw [hx] at this; simp at this ⊢; omega

/-- Absence of non-finite numeric leaves in a Python value tree. -/
def noNanInf : PyVal → Bool
  | .pyInt _ => true
  | .pyFloat _ => true
  | .pyNan => false
  | .pyInf => false
  | .pyNone => true
  | .pyStr _ => true
  | .pyList l => l.attach.all (fun x => noNanInf x.1)
  | .pyDict l => l.attach.all (fun x => noNanInf x.1.2)
decreasing_by
  all_goals simp_wf
  · have := List.sizeOf_lt_of_mem x.2
    omega
  · have := List.sizeOf_lt_of_mem x.2
    cases hx : x.1 with
    | mk a b => rw [hx] at this; simp at this ⊢; omega

/-- Rendering of one curve point as the dict `{"P_percent": p, "Q": q}`. -/
def pyOfCurvePoint (pt : ℚ × ℚ) : PyVal :=
  .pyDict [("P_percent", .pyFloat pt.1), ("Q", .pyFloat pt.2)]

/-- Rendering of an optional float, `None` for the NaN case. -/
def pyOfOpt : Option ℚ → PyVal
  | some q => .pyFloat q
  | none => .pyNone

/-- Rendering of the `parameters` dict built by `extract_params`. -/
def pyOfParams (pd : ParamsDict) : PyVal :=
  .pyDict
    [("shape",
      match pd.shape with
      | none => .pyNone
      | some l => .pyList (l.map .pyFloat)),
     ("loc", .pyFloat pd.loc),
     ("scale", .pyFloat pd.scale)]

/-- Rendering a quality warning (a message string in the source). -/
def pyOfWarning (_ : QualityWarning) : PyVal := .pyStr "warning"

/-- Rendering of the final returned dictionary (lines 1343–1357 for the
full result, lines 346–348 for the degenerate empty one).  Statistics and
curve/empirical values go through `_convert_to_python_type` in the source;
they are finite rationals here, on which the conversion is the identity.
Confidence-interval values are emitted via plain `float(...)` without
conversion. -/
def pyOfResult (out : FreqOut) : PyVal :=
  match out with
  | .empty =>
      .pyDict [("theoretical_curve", .pyList []),
               ("empirical_points", .pyList [])]
  | .full r =>
      .pyDict
        [("theoretical_curve", .pyList (r.theoretical_curve.map pyOfCurvePoint)),
         ("empirical_points", .pyList (r.empirical_points.map pyOfCurvePoint)),
         ("confidence_intervals",
          match r.confidence_intervals with
          | none => .pyNone
          | some b =>
              .pyDict [("lower", .pyList (b.1.map pyOfCurvePoint)),
                       ("upper", .pyList (b.2.map pyOfCurvePoint))]),
         ("statistics",
          .pyDict [("mean", .pyFloat r.statistics.mean),
                   ("std", .pyFloat r.statistics.std),
                   ("cv", .pyFloat r.statistics.cv),
                   ("cs", pyOfOpt r.statistics.cs),
                   ("n", .pyInt r.statistics.n)]),
         ("parameters", pyOfParams r.parameters),
         ("distribution", .pyStr r.distribution),
         ("quality_warnings", .pyList (r.quality_warnings.map pyOfWarning))]

/-! ### Lemmas: sampled probability positions -/

theorem mem_dedupTolGo {x : ℚ} :
    ∀ {prev : ℚ} {l : List ℚ}, x ∈ dedupTolGo prev l → x ∈ l := by
  intro prev l
  induction l generalizing prev with
  | nil => intro h; simp [dedupTolGo] at h
  | cons y ys ih =>
      intro h
      simp only [dedupTolGo] at h
      by_cases hc : 1 / 10 ^ 6 < y - prev
      · rw [if_pos hc] at h
        rcases List.mem_cons.mp h with h | h
        · exact h ▸ List.mem_cons_self _ _
        · exact List.mem_cons_of_mem _ (ih h)
      · rw [if_neg hc] at h
        exact List.mem_cons_of_mem _ (ih h)

theorem mem_dedupTol {x : ℚ} {l : List ℚ} (h : x ∈ dedupTol l) : x ∈ l := by
  cases l with
  | nil => simp [dedupTol] at h
  | cons a rest =>
      simp only [dedupTol] at h
      rcases List.mem_cons.mp h with h | h
      · exact h ▸ List.mem_cons_self _ _
      · exact List.mem_cons_of_mem _ (mem_dedupTolGo h)

theorem chain_lt_cons_dedupTolGo :
    ∀ (l : List ℚ) (prev low : ℚ), low ≤ prev →
      List.Chain' (· ≤ ·) (prev :: l) →
      List.Chain' (· < ·) (low :: dedupTolGo prev l) := by
  intro l
  induction l with
  | nil => intro prev low _ _; simp [dedupTolGo]
  | cons x xs ih =>
      intro prev low hlow hchain
      have hpx : prev ≤ x := (List.chain'_cons.mp hchain).1
      have htail : List.Chain' (· ≤ ·) (x :: xs) := (List.chain'_cons.mp hchain).2
      simp only [dedupTolGo]
      by_cases hc : 1 / 10 ^ 6 < x - prev
      · rw [if_pos hc]
        have hlx : low < x := by
          have h0 : (0 : ℚ) < 1 / 10 ^ 6 := by norm_num
          linarith
        exact List.chain'_cons.mpr ⟨hlx, ih x x le_rfl htail⟩
      · rw [if_neg hc]
        exact ih x low (hlow.trans hpx) htail

theorem pairwise_lt_dedupTol_of_sorted {l : List ℚ}
    (h : List.Sorted (· ≤ ·) l) :
    List.Pairwise (· < ·) (dedupTol l) := by
  have hch : List.Chain' (· < ·) (dedupTol l) := by
    cases l with
    | nil => simp [dedupTol]
    | cons a rest =>
        simp only [dedupTol]
        exact chain_lt_cons_dedupTolGo rest a a le_rfl h.chain'
  exact List.chain'_iff_pairwise.mp hch

theorem pPercentFixed_eq (ops : ExtOps) :
    pPercentFixedOf ops =
      dedupTol (((mixedScalePositions.map (inverseMixedScale ops)).map
        (fun p => min maxP (max minP p))).insertionSort (· ≤ ·)) := rfl

theorem pPercentFixed_bounds (ops : ExtOps) :
    ∀ p ∈ pPercentFixedOf ops, minP ≤ p ∧ p ≤ maxP := by
  intro p hp
  rw [pPercentFixed_eq] at hp
  have hmem := mem_dedupTol hp
  rw [List.mem_insertionSort] at hmem
  rcases List.mem_map.mp hmem with ⟨q, _, rfl⟩
  refine ⟨le_min (by norm_num [minP, maxP]) (le_max_left _ _), min_le_left _ _⟩

theorem pPercentFixed_pairwise (ops : ExtOps) :
    List.Pairwise (· < ·) (pPercentFixedOf ops) := by
  rw [pPercentFixed_eq]
  refine pairwise_lt_dedupTol_of_sorted ?_
  exact List.sorted_insertionSort _ _

/-! ### Lemmas: theoretical curve construction -/

theorem theoreticalPairs_fst_sublist (ops : ExtOps)
    (distributionName : String) (params : List ℚ) (meanQ stdQ : ℚ)
    (pPercent : List ℚ) :
    List.Sublist
      ((theoreticalPairs ops distributionName params meanQ stdQ pPercent).map
        Prod.fst) pPercent := by
  unfold theoreticalPairs
  by_cases hg : distributionName = "gumbel"
  · rw [if_pos hg]
    by_cases hd : useDirectFormula ops params meanQ stdQ
    · rw [if_pos hd]
      have heq : ((pPercent.map (fun p => (p, p / 100))).map
          (fun pp => (pp.1, if 0 < pp.2 ∧ pp.2 < 1 then
            some (gumbelDirectQ ops meanQ stdQ pp.2) else none))).map Prod.fst
          = pPercent := by
        simp [List.map_map, Function.comp_def]
      rw [heq]
    · rw [if_neg hd]
      have h0 : List.Sublist
          (((pPercent.map (fun p => (p, p / 100))).map
            (fun pp => (pp.1, ops.ppf "gumbel" params (1 - pp.2)))).filter
            (fun pq => match pq.2 with
              | some q => decide (0 < q)
              | none => false))
          ((pPercent.map (fun p => (p, p / 100))).map
            (fun pp => (pp.1, ops.ppf "gumbel" params (1 - pp.2)))) :=
        List.filter_sublist _
      have h1 := h0.map Prod.fst
      have heq : (((pPercent.map (fun p => (p, p / 100))).map
          (fun pp => (pp.1, ops.ppf "gumbel" params (1 - pp.2)))).map
            Prod.fst) = pPercent := by
        simp [List.map_map, Function.comp_def]
      rw [heq] at h1
      exact h1
  · rw [if_neg hg]
    have h0 : List.Sublist
        (((pPercent.map (fun p => (p, p / 100))).map
          (fun pp => (pp.1, ops.ppf distributionName params (1 - pp.2)))).filter
          (fun pq => match pq.2 with
            | some q => decide (0 < q ∧ q < 10 ^ 12)
            | none => false))
        ((pPercent.map (fun p => (p, p / 100))).map
          (fun pp => (pp.1, ops.ppf distributionName params (1 - pp.2)))) :=
      List.filter_sublist _
    have h1 := h0.map Prod.fst
    have heq : (((pPercent.map (fun p => (p, p / 100))).map
        (fun pp => (pp.1, ops.ppf distributionName params (1 - pp.2)))).map
          Prod.fst) = pPercent := by
      simp [List.map_map, Function.comp_def]
    rw [heq] at h1
    exact h1

theorem buildCurve_cons (pq : ℚ × Option ℚ) (rest : List (ℚ × Option ℚ)) :
    buildCurve (pq :: rest) =
      match pq.2 with
      | none => buildCurve rest
      | some q =>
          if 10 ^ 12 ≤ q then buildCurve rest
          else ((pq.1, max 0 q) :: (buildCurve rest).1,
            (if q < 0 then 1 else 0) + (buildCurve rest).2) := rfl

theorem buildCurve_qual (pairs : List (ℚ × Option ℚ)) :
    ∀ pt ∈ (buildCurve pairs).1, 0 ≤ pt.2 := by
  induction pairs with
  | nil => simp [buildCurve]
  | cons pq rest ih =>
      obtain ⟨p1, q1⟩ := pq
      intro pt hpt
      rw [buildCurve_cons] at hpt
      cases q1 with
      | none => exact ih pt hpt
      | some q =>
          simp only at hpt
          by_cases hq : (10 : ℚ) ^ 12 ≤ q
          · rw [if_pos hq] at hpt; exact ih pt hpt
          · rw [if_neg hq] at hpt
            rcases List.mem_cons.mp hpt with h | h
            · rw [h]; exact le_max_left _ _
            · exact ih pt h

theorem buildCurve_fst_sublist (pairs : List (ℚ × Option ℚ)) :
    List.Sublist (((buildCurve pairs).1).map Prod.fst)
      (pairs.map Prod.fst) := by
  induction pairs with
  | nil => simp [buildCurve]
  | cons pq rest ih =>
      obtain ⟨p1, q1⟩ := pq
      rw [buildCurve_cons]
      cases q1 with
      | none => exact ih.cons _
      | some q =>
          simp only
          by_cases hq : (10 : ℚ) ^ 12 ≤ q
          · rw [if_pos hq]; exact ih.cons _
          · rw [if_neg hq]
            simp only [List.map_cons]
            exact List.Sublist.cons₂ _ ih

theorem sortByKey_eq_self {ps : List (ℚ × ℚ)}
    (h : List.Pairwise (fun a b : ℚ × ℚ => a.1 < b.1) ps) :
    ps.insertionSort (fun a b => a.1 ≤ b.1) = ps :=
  List.Sorted.insertionSort_eq (h.imp (fun hab => le_of_lt hab))

/-! ### Lemmas: the assembled full result -/

theorem fullResult_curve_def (ops : ExtOps) (distributionName : String)
    (qmaxF : List ℚ) (params : List ℚ)
    (rows : List (Option (List (Option ℚ)))) :
    (fullResultOf ops distributionName qmaxF params rows).theoretical_curve =
      theoreticalCurveOf (theoreticalPairs ops distributionName params
        (meanOf qmaxF) (stdOf ops qmaxF) (pPercentFixedOf ops)) := rfl

theorem fullResult_emp_def (ops : ExtOps) (distributionName : String)
    (qmaxF : List ℚ) (params : List ℚ)
    (rows : List (Option (List (Option ℚ)))) :
    (fullResultOf ops distributionName qmaxF params rows).empirical_points =
      empiricalPointsOf qmaxF := rfl

theorem fullResult_ci_def (ops : ExtOps) (distributionName : String)
    (qmaxF : List ℚ) (params : List ℚ)
    (rows : List (Option (List (Option ℚ)))) :
    (fullResultOf ops distributionName qmaxF params rows).confidence_intervals =
      (if 20 ≤ qmaxF.length ∧ distributionName ∈ fastDistributions then
        ciSection ops distributionName params qmaxF
          ((theoreticalPairs ops distributionName params
            (meanOf qmaxF) (stdOf ops qmaxF) (pPercentFixedOf ops)).map
              Prod.fst) rows
      else none) := rfl

theorem fullResult_warnings_def (ops : ExtOps) (distributionName : String)
    (qmaxF : List ℚ) (params : List ℚ)
    (rows : List (Option (List (Option ℚ)))) :
    (fullResultOf ops distributionName qmaxF params rows).quality_warnings =
      qualityWarningsOf
        (if meanOf qmaxF ≠ 0 then stdOf ops qmaxF / meanOf qmaxF else 0)
        (ops.skew qmaxF) qmaxF.length
        (buildCurve (theoreticalPairs ops distributionName params
          (meanOf qmaxF) (stdOf ops qmaxF) (pPercentFixedOf ops))).2
        (ops.ppf distributionName params (1 - 1 / 100))
        (qmaxF.max?.getD 0) := rfl

theorem theoreticalCurve_pairwise (ops : ExtOps) (distributionName : String)
    (params : List ℚ) (meanQ stdQ : ℚ) :
    List.Pairwise (fun a b : ℚ × ℚ => a.1 < b.1)
      (theoreticalCurveOf (theoreticalPairs ops distributionName params
        meanQ stdQ (pPercentFixedOf ops))) := by
  have hsub := (buildCurve_fst_sublist (theoreticalPairs ops distributionName
    params meanQ stdQ (pPercentFixedOf ops))).trans
    (theoreticalPairs_fst_sublist ops distributionName params meanQ stdQ
      (pPercentFixedOf ops))
  have hpw : List.Pairwise (· < ·)
      (((buildCurve (theoreticalPairs ops distributionName params meanQ stdQ
        (pPercentFixedOf ops))).1).map Prod.fst) :=
    (pPercentFixed_pairwise ops).sublist hsub
  have hpw2 : List.Pairwise (fun a b : ℚ × ℚ => a.1 < b.1)
      ((buildCurve (theoreticalPairs ops distributionName params meanQ stdQ
        (pPercentFixedOf ops))).1) := (List.pairwise_map).mp hpw
  unfold theoreticalCurveOf
  rw [sortByKey_eq_self hpw2]
  exact hpw2

theorem theoreticalCurve_mem_bounds (ops : ExtOps) (distributionName : String)
    (params : List ℚ) (meanQ stdQ : ℚ) :
    ∀ pt ∈ theoreticalCurveOf (theoreticalPairs ops distributionName params
        meanQ stdQ (pPercentFixedOf ops)),
      0 < pt.1 ∧ pt.1 < 100 ∧ 0 ≤ pt.2 := by
  intro pt hpt
  have hpw2 : List.Pairwise (fun a b : ℚ × ℚ => a.1 < b.1)
      ((buildCurve (theoreticalPairs ops distributionName params meanQ stdQ
        (pPercentFixedOf ops))).1) := by
    have hsub := (buildCurve_fst_sublist (theoreticalPairs ops distributionName
      params meanQ stdQ (pPercentFixedOf ops))).trans
      (theoreticalPairs_fst_sublist ops distributionName params meanQ stdQ
        (pPercentFixedOf ops))
    exact (List.pairwise_map).mp ((pPercentFixed_pairwise ops).sublist hsub)
  rw [theoreticalCurveOf, sortByKey_eq_self hpw2] at hpt
  have hq := buildCurve_qual _ pt hpt
  have hp1 : pt.1 ∈ ((buildCurve (theoreticalPairs ops distributionName params
      meanQ stdQ (pPercentFixedOf ops))).1).map Prod.fst :=
    List.mem_map_of_mem Prod.fst hpt
  have hsub := (buildCurve_fst_sublist (theoreticalPairs ops distributionName
    params meanQ stdQ (pPercentFixedOf ops))).trans
    (theoreticalPairs_fst_sublist ops distributionName params meanQ stdQ
      (pPercentFixedOf ops))
  have hmem : pt.1 ∈ pPercentFixedOf ops := hsub.mem hp1
  have hb := pPercentFixed_bounds ops pt.1 hmem
  refine ⟨lt_of_lt_of_le (by norm_num [minP]) hb.1,
    lt_of_le_of_lt hb.2 (by norm_num [maxP]), hq⟩

theorem clampWarning_pos (cv : ℚ) (cs : Option ℚ) (n : Nat)
    (numClamped : Nat) (q1pct : Option ℚ) (qmaxVal : ℚ) :
    ∀ k, QualityWarning.clampedNegatives k ∈
        qualityWarningsOf cv cs n numClamped q1pct qmaxVal → 0 < k := by
  intro k hk
  unfold qualityWarningsOf at hk
  simp only [List.mem_append] at hk
  rcases hk with ((((h | h) | h) | h) | h)
  · split at h <;> simp_all
  · rcases cs with _ | c
    · simp at h
    · simp only at h; split at h <;> simp_all
  · split at h <;> simp_all
  · split at h <;> simp_all
  · rcases q1pct with _ | v
    · simp at h
    · simp only at h; split at h <;> simp_all

/-! ### Lemmas: the all-equal (flat) series scenario -/

theorem meanOf_flat (c : ℚ) : meanOf [c, c, c] = c := by
  simp [meanOf]
  ring

theorem varOf_flat (c : ℚ) : varOf [c, c, c] = 0 := by
  simp [varOf, meanOf_flat]

theorem stdOf_flat (ops : ExtOps) (c : ℚ) (h0 : ops.sqrtQ 0 = 0) :
    stdOf ops [c, c, c] = 0 := by
  rw [stdOf, varOf_flat, h0]

theorem momGumbel_flat (ops : ExtOps) (c : ℚ) (h0 : ops.sqrtQ 0 = 0) :
    fitDistributionMom ops "gumbel" [c, c, c] = some [c, 0] := by
  unfold fitDistributionMom
  rw [if_pos rfl]
  rw [stdOf_flat ops c h0, meanOf_flat]
  norm_num [eulerGamma]

theorem fitSelect_flat (c : ℚ) (mle : Option (List (Option ℚ))) :
    fitSelect true (some [some c, some 0]) mle = .ok [c, 0] := by
  simp [fitSelect, List.filterMap]

theorem useDirect_flat (ops : ExtOps) (c : ℚ) :
    useDirectFormula ops [c, 0] c 0 = true := by
  simp only [useDirectFormula]
  norm_num [eulerGamma]

theorem gumbelDirectQ_flat (ops : ExtOps) (c p : ℚ) :
    gumbelDirectQ ops c 0 p = c := by
  simp [gumbelDirectQ]

theorem theoreticalPairs_flat (ops : ExtOps) (c : ℚ) :
    theoreticalPairs ops "gumbel" [c, 0] c 0 (pPercentFixedOf ops) =
      (pPercentFixedOf ops).map (fun p => (p, some c)) := by
  unfold theoreticalPairs
  rw [if_pos rfl, if_pos (useDirect_flat ops c)]
  rw [List.map_map]
  apply List.map_congr_left
  intro p hp
  have hb := pPercentFixed_bounds ops p hp
  have h1 : 0 < p / 100 := by
    have : (0 : ℚ) < minP := by norm_num [minP]
    have := lt_of_lt_of_le this hb.1
    positivity
  have h2 : p / 100 < 1 := by
    have := hb.2
    rw [maxP] at this
    linarith
  simp only [Function.comp]
  rw [if_pos ⟨h1, h2⟩, gumbelDirectQ_flat]

theorem buildCurve_const (c : ℚ) (hc : 0 ≤ c) (hc12 : c < 10 ^ 12) :
    ∀ ps : List ℚ,
      buildCurve (ps.map (fun p => (p, some c))) =
        (ps.map (fun p => (p, c)), 0) := by
  intro ps
  induction ps with
  | nil => simp [buildCurve]
  | cons p rest ih =>
      rw [List.map_cons, buildCurve_cons]
      simp only
      rw [if_neg (not_le.mpr hc12), ih]
      rw [if_neg (not_lt.mpr hc)]
      simp [max_eq_right hc]

theorem theoreticalCurve_flat (ops : ExtOps) (c : ℚ) (hc : 0 ≤ c)
    (hc12 : c < 10 ^ 12) :
    theoreticalCurveOf (theoreticalPairs ops "gumbel" [c, 0] c 0
        (pPercentFixedOf ops)) =
      (pPercentFixedOf ops).map (fun p => (p, c)) := by
  have hpw2 : List.Pairwise (fun a b : ℚ × ℚ => a.1 < b.1)
      ((pPercentFixedOf ops).map (fun p => (p, c))) := by
    refine (List.pairwise_map).mpr ?_
    exact pPercentFixed_pairwise ops
  rw [theoreticalCurveOf]
  rw [theoreticalPairs_flat]
  simp only [buildCurve_const c hc hc12]
  exact sortByKey_eq_self hpw2

theorem sortDesc_flat (c : ℚ) : sortDesc [c, c, c] = [c, c, c] := by
  simp [sortDesc, List.insertionSort, List.orderedInsert, le_refl]

theorem empirical_flat (c : ℚ) :
    empiricalPointsOf [c, c, c] = [(25, c), (50, c), (75, c)] := by
  rw [empiricalPointsOf, sortDesc_flat]
  have hlen : ([c, c, c] : List ℚ).length = 3 := rfl
  rw [hlen]
  have h : weibullPositions 3 = [25, 50, 75] := by
    simp [weibullPositions, List.range_succ]
    norm_num
  rw [h]
  rfl

theorem maxD_flat (c : ℚ) : ([c, c, c] : List ℚ).max?.getD 0 = c := by
  simp [List.max?]

theorem fullResult_flat_fields (ops : ExtOps) (c : ℚ) (hc : 0 < c)
    (hc12 : c < 10 ^ 12) (h0 : ops.sqrtQ 0 = 0)
    (rows : List (Option (List (Option ℚ)))) :
    (fullResultOf ops "gumbel" [c, c, c] [c, 0] rows).theoretical_curve =
        (pPercentFixedOf ops).map (fun p => (p, c)) ∧
      (fullResultOf ops "gumbel" [c, c, c] [c, 0] rows).empirical_points =
        [(25, c), (50, c), (75, c)] ∧
      (fullResultOf ops "gumbel" [c, c, c] [c, 0] rows).confidence_intervals =
        none ∧
      (fullResultOf ops "gumbel" [c, c, c] [c, 0] rows).parameters =
        ⟨none, c, 0⟩ ∧
      (fullResultOf ops "gumbel" [c, c, c] [c, 0] rows).quality_warnings =
        qualityWarningsOf 0 (ops.skew [c, c, c]) 3 0
          (ops.ppf "gumbel" [c, 0] (1 - 1 / 100)) c := by
  refine ⟨?_, ?_, ?_, ?_, ?_⟩
  · rw [fullResult_curve_def, meanOf_flat, stdOf_flat ops c h0]
    exact theoreticalCurve_flat ops c (le_of_lt hc) hc12
  · rw [fullResult_emp_def]
    exact empirical_flat c
  · rw [fullResult_ci_def]
    rw [if_neg]
    intro hcontra
    exact absurd hcontra.1 (by norm_num)
  · rfl
  · rw [fullResult_warnings_def, meanOf_flat, stdOf_flat ops c h0, maxD_flat]
    have hlen : ([c, c, c] : List ℚ).length = 3 := rfl
    rw [hlen]
    have hcv : (if c ≠ 0 then (0 : ℚ) / c else 0) = 0 := by
      split <;> simp
    rw [hcv]
    have hclamp : (buildCurve (theoreticalPairs ops "gumbel" [c, 0] c 0
        (pPercentFixedOf ops))).2 = 0 := by
      rw [theoreticalPairs_flat, buildCurve_const c (le_of_lt hc) hc12]
    rw [hclamp]

theorem compute_flat (ops : ExtOps) (c : ℚ) (hc : 0 < c)
    (h0 : ops.sqrtQ 0 = 0) (rows : List (Option (List (Option ℚ)))) :
    computeFrequencyCurve ops [some c, some c, some c] "gumbel" "max" "mom"
        rows =
      .ok (.full (fullResultOf ops "gumbel" [c, c, c] [c, 0] rows)) := by
  unfold computeFrequencyCurve
  rw [if_neg (by decide : ¬ ¬ validateAggFunc "max" = true)]
  rw [if_neg (by decide : ¬ ("gumbel" ∉ supportedDistributions))]
  rw [if_neg (by decide : ¬ ("mom" ∉ validMethods))]
  have hfm : ([some c, some c, some c] : List (Option ℚ)).filterMap id =
      [c, c, c] := by simp
  simp only [hfm]
  rw [if_neg (by simp : ¬ ([c, c, c] : List ℚ).isEmpty = true)]
  have hfl : ([c, c, c] : List ℚ).filter (fun q => 0 < q) = [c, c, c] := by
    simp [List.filter, hc]
  simp only [hfl]
  rw [if_neg (by simp : ¬ ([c, c, c] : List ℚ).isEmpty = true)]
  rw [if_neg (by simp : ¬ ([c, c, c] : List ℚ).length < 3)]
  rw [momGumbel_flat ops c h0]
  have husem : useMomFor "mom" "gumbel" = true := by decide
  rw [husem]
  have hmap : (some [c, 0] : Option (List ℚ)).map (List.map some) =
      some [some c, some 0] := by simp
  rw [hmap, fitSelect_flat]

/-! ### Lemmas: success-shape of the orchestrator -/

/-- The finite positive values surviving the two filtering passes of the
orchestrator (`Qmax_filtered`). -/
def validValuesOf (series : List (Option ℚ)) : List ℚ :=
  (series.filterMap id).filter (fun q => 0 < q)

theorem compute_full_inv {ops : ExtOps} {series : List (Option ℚ)}
    {distributionName aggFunc method : String}
    {rows : List (Option (List (Option ℚ)))} {r : FreqResult}
    (h : computeFrequencyCurve ops series distributionName aggFunc method
      rows = .ok (.full r)) :
    ∃ params,
      fitSelect (useMomFor method distributionName)
        ((fitDistributionMom ops distributionName
          (validValuesOf series)).map (List.map some))
        (ops.mleFit distributionName (validValuesOf series)) = .ok params ∧
      r = fullResultOf ops distributionName
        (validValuesOf series) params rows ∧
      3 ≤ (validValuesOf series).length := by
  unfold validValuesOf
  unfold computeFrequencyCurve at h
  split at h
  · exact absurd h (by simp)
  split at h
  · exact absurd h (by simp)
  split at h
  · exact absurd h (by simp)
  dsimp only at h
  split at h
  · exact absurd h (by simp)
  split at h
  · exact absurd h (by simp)
  split at h
  · exact absurd h (by simp)
  rename_i hlen
  split at h
  · exact absurd h (by simp)
  rename_i params hsel
  have h2 := Except.ok.inj h
  have h3 := FreqOut.full.inj h2
  exact ⟨params, hsel, h3.symm, by omega⟩

/-! ### Lemmas: empirical points -/

instance : IsTotal ℚ (fun a b => b ≤ a) := ⟨fun a b => le_total b a⟩

instance : IsTrans ℚ (fun a b => b ≤ a) :=
  ⟨fun _ _ _ hab hbc => le_trans hbc hab⟩

theorem sortDesc_length (xs : List ℚ) : (sortDesc xs).length = xs.length := by
  simp [sortDesc]

theorem sortDesc_perm (xs : List ℚ) : (sortDesc xs).Perm xs :=
  List.perm_insertionSort _ xs

theorem sortDesc_sorted (xs : List ℚ) :
    List.Sorted (fun a b => b ≤ a) (sortDesc xs) :=
  List.sorted_insertionSort _ xs

theorem weibullPositions_length (n : Nat) : (weibullPositions n).length = n := by
  unfold weibullPositions
  rw [List.length_map, List.length_range]

theorem empiricalPoints_length (xs : List ℚ) :
    (empiricalPointsOf xs).length = xs.length := by
  rw [empiricalPointsOf, List.length_zip, weibullPositions_length,
    sortDesc_length, min_self]

theorem empiricalPoints_getD (xs : List ℚ) (i : ℕ) (h : i < xs.length) :
    (empiricalPointsOf xs).getD i (0, 0) =
      (((i : ℚ) + 1) / ((xs.length : ℚ) + 1) * 100,
        (sortDesc xs).getD i 0) := by
  have hw : i < (weibullPositions xs.length).length := by
    rw [weibullPositions_length]; exact h
  have hs : i < (sortDesc xs).length := by
    rw [sortDesc_length]; exact h
  have hz : i < (empiricalPointsOf xs).length := by
    rw [empiricalPoints_length]; exact h
  rw [empiricalPointsOf] at hz ⊢
  rw [List.getD_eq_getElem _ _ hz, List.getD_eq_getElem _ _ hs]
  rw [List.getElem_zip]
  congr 1
  simp [weibullPositions]

/-! ### Concrete oracle instances for witness computations -/

/-- Concrete stand-in oracle used for witness computations.  Its fields
agree with the real numerical routines at the points where the witness
arguments evaluate them: `sqrt 0 = 0`, and `skew` / `ppf` / `mleFit` return
the NaN/exception marker, as scipy does on the degenerate inputs of the
witnesses. -/
def opsC : ExtOps :=
  { sqrtQ := fun q => if q = 0 then 0 else 1
    logQ := fun _ => 1
    expQ := fun _ => 1
    log10Q := fun _ => 0
    pow10Q := fun _ => 1
    piQ := 355 / 113
    ppf := fun _ _ _ => none
    mleFit := fun _ _ => none
    skew := fun _ => none }

/-- Variant of `opsC` whose quantile oracle returns the finite value 1,
below the observed maximum of the witness series. -/
def opsD : ExtOps :=
  { sqrtQ := fun q => if q = 0 then 0 else 1
    logQ := fun _ => 1
    expQ := fun _ => 1
    log10Q := fun _ => 0
    pow10Q := fun _ => 1
    piQ := 355 / 113
    ppf := fun _ _ _ => some 1
    mleFit := fun _ _ => none
    skew := fun _ => none }

/-! ### Claim C1 -/

/-- Invariant package of claim C1 on one engine result: `P_percent`
strictly increasing (hence sorted), strictly inside `(0, 100)`, quantiles
non-negative, and any recorded clamp count positive. -/
def theoreticalCurveInvariant (res : Except AnalysisError FreqOut) : Prop :=
  match res with
  | .ok (.full r) =>
      List.Pairwise (fun a b : ℚ × ℚ => a.1 < b.1) r.theoretical_curve ∧
      (∀ pt ∈ r.theoretical_curve, 0 < pt.1 ∧ pt.1 < 100 ∧ 0 ≤ pt.2) ∧
      (∀ k, QualityWarning.clampedNegatives k ∈ r.quality_warnings → 0 < k)
  | _ => True

/-- C1: for every supported distribution and every valid series, the
theoretical curve returned by `compute_frequency_curve` has strictly
increasing `P_percent` values, every `P_percent` strictly between 0
and 100, and every quantile `Q ≥ 0`, with any recorded clamp count
positive. -/
theorem c1_theoretical_curve_invariants (ops : ExtOps)
    (series : List (Option ℚ)) (distributionName aggFunc method : String)
    (rows : List (Option (List (Option ℚ)))) :
    theoreticalCurveInvariant
      (computeFrequencyCurve ops series distributionName aggFunc method
        rows) := by
  cases hres : computeFrequencyCurve ops series distributionName aggFunc
      method rows with
  | error e => trivial
  | ok out =>
      cases out with
      | empty => trivial
      | full r =>
          obtain ⟨params, _, hr, _⟩ := compute_full_inv hres
          subst hr
          refine ⟨?_, ?_, ?_⟩
          · rw [fullResult_curve_def]
            exact theoreticalCurve_pairwise ops distributionName params _ _
          · rw [fullResult_curve_def]
            exact theoreticalCurve_mem_bounds ops distributionName params _ _
          · rw [fullResult_warnings_def]
            exact clampWarning_pos _ _ _ _ _ _

/-- Witness for C1 at a concrete successful invocation. -/
theorem c1_witness :
    theoreticalCurveInvariant
      (computeFrequencyCurve opsC [some 4, some 4, some 4] "gumbel" "max"
        "mom" []) :=
  c1_theoretical_curve_invariants opsC [some 4, some 4, some 4] "gumbel"
    "max" "mom" []

/-! ### Claim C2 -/

/-- Invariant package of claim C2 on one engine result: exactly `n`
empirical points, the `i`-th (0-based) having the Weibull plotting
position `(i+1)/(n+1)·100` and the `i`-th entry of the descending-sorted
series, which is a descending-sorted permutation of the valid values. -/
def empiricalInvariant (series : List (Option ℚ))
    (res : Except AnalysisError FreqOut) : Prop :=
  match res with
  | .ok (.full r) =>
      r.empirical_points.length = (validValuesOf series).length ∧
      (∀ i, i < (validValuesOf series).length →
        r.empirical_points.getD i (0, 0) =
          (((i : ℚ) + 1) / (((validValuesOf series).length : ℚ) + 1) * 100,
            (sortDesc (validValuesOf series)).getD i 0)) ∧
      List.Sorted (fun a b => b ≤ a) (sortDesc (validValuesOf series)) ∧
      (sortDesc (validValuesOf series)).Perm (validValuesOf series)
  | _ => True

/-- C2: for every valid aggregated series of `n` positive finite values,
`compute_frequency_curve` returns exactly `n` empirical points whose
`i`-th entry (probability ascending) has `P_percent = 100·i/(n+1)` and
whose quantile is the `i`-th largest value of the series. -/
theorem c2_empirical_points (ops : ExtOps) (series : List (Option ℚ))
    (distributionName aggFunc method : String)
    (rows : List (Option (List (Option ℚ)))) :
    empiricalInvariant series
      (computeFrequencyCurve ops series distributionName aggFunc method
        rows) := by
  cases hres : computeFrequencyCurve ops series distributionName aggFunc
      method rows with
  | error e => trivial
  | ok out =>
      cases out with
      | empty => trivial
      | full r =>
          obtain ⟨params, _, hr, _⟩ := compute_full_inv hres
          subst hr
          rw [empiricalInvariant]
          rw [fullResult_emp_def]
          refine ⟨empiricalPoints_length _, ?_, sortDesc_sorted _,
            sortDesc_perm _⟩
          intro i hi
          exact empiricalPoints_getD _ i hi

/-- Witness for C2 at a concrete invocation. -/
theorem c2_witness :
    empiricalInvariant [some 4, some 4, some 4]
      (computeFrequencyCurve opsC [some 4, some 4, some 4] "gumbel" "max"
        "mom" []) :=
  c2_empirical_points opsC [some 4, some 4, some 4] "gumbel" "max" "mom" []

theorem compute_unfold (ops : ExtOps) (series : List (Option ℚ))
    (distributionName aggFunc method : String)
    (rows : List (Option (List (Option ℚ)))) :
    computeFrequencyCurve ops series distributionName aggFunc method rows =
      (if ¬ validateAggFunc aggFunc = true then .error .invalidAggFunc
       else if distributionName ∉ supportedDistributions then
         .error .unsupportedDistribution
       else if method ∉ validMethods then .error .invalidMethod
       else if (series.filterMap id).isEmpty = true then .ok .empty
       else if (validValuesOf series).isEmpty = true then
         .error .emptyAfterFiltering
       else if (validValuesOf series).length < 3 then
         .error (.insufficientData (validValuesOf series).length)
       else
         match fitSelect (useMomFor method distributionName)
           ((fitDistributionMom ops distributionName
             (validValuesOf series)).map (List.map some))
           (ops.mleFit distributionName (validValuesOf series)) with
         | .error e => .error e
         | .ok params =>
             .ok (.full (fullResultOf ops distributionName
               (validValuesOf series) params rows))) := rfl

/-! ### Claim C8 -/

/-- C8: an input whose aggregated series keeps at least one but fewer than
3 valid (finite, positive) values fails with the `InsufficientData` client
error and produces no result. -/
theorem c8_insufficient_data (ops : ExtOps) (series : List (Option ℚ))
    (distributionName aggFunc method : String)
    (rows : List (Option (List (Option ℚ))))
    (hagg : validateAggFunc aggFunc = true)
    (hdist : distributionName ∈ supportedDistributions)
    (hmeth : method ∈ validMethods)
    (h1 : 1 ≤ (validValuesOf series).length)
    (h3 : (validValuesOf series).length < 3) :
    computeFrequencyCurve ops series distributionName aggFunc method rows =
      .error (.insufficientData (validValuesOf series).length) := by
  have hraw : ¬ ((series.filterMap id).isEmpty = true) := by
    rw [List.isEmpty_iff]
    intro he
    unfold validValuesOf at h1
    rw [he] at h1
    simp at h1
  have hfil : ¬ ((validValuesOf series).isEmpty = true) := by
    rw [List.isEmpty_iff]
    intro he
    rw [he] at h1
    simp at h1
  rw [compute_unfold, if_neg (not_not_intro hagg),
    if_neg (not_not_intro hdist), if_neg (not_not_intro hmeth),
    if_neg hraw, if_neg hfil, if_pos h3]

/-- Witness for C8: a raw series with one positive and one non-positive
value fails with `InsufficientData` reporting 1 valid value. -/
theorem c8_witness :
    validateAggFunc "max" = true ∧
    "gumbel" ∈ supportedDistributions ∧
    "mle" ∈ validMethods ∧
    1 ≤ (validValuesOf [some 5, some (-1)]).length ∧
    (validValuesOf [some 5, some (-1)]).length < 3 ∧
    computeFrequencyCurve opsC [some 5, some (-1)] "gumbel" "max" "mle" [] =
      .error (.insufficientData 1) := by
  refine ⟨by decide, by decide, by decide, by decide, by decide, ?_⟩
  have h := c8_insufficient_data opsC [some 5, some (-1)] "gumbel" "max"
    "mle" [] (by decide) (by decide) (by decide) (by decide) (by decide)
  have hl : (validValuesOf [some 5, some (-1)]).length = 1 := by decide
  rw [hl] at h
  exact h

/-! ### Claim C5 -/

/-- Claim C5 as stated: whenever the moments estimate is inapplicable
(`None`) or contains non-finite parameters, the selection behaves exactly
like the pure likelihood path (fallback), so the call fails only when
likelihood also fails. -/
def momFallbackClaim : Prop :=
  ∀ (momResult mleResult : Option (List (Option ℚ))),
    (momResult = none ∨
      ∃ ps, momResult = some ps ∧ ¬ ps.all (·.isSome) = true) →
    fitSelect true momResult mleResult = fitSelect false momResult mleResult

/-- Counterexample to C5: a moments result with a non-finite entry
(reachable in the source via float overflow, e.g. a series of values near
`1e200` whose sample variance overflows to `inf`, making the gumbel MOM
parameters `(-inf, inf)`) is not retried with likelihood; the call fails
with `DegenerateFit` even though the likelihood fit would have produced
finite parameters. -/
theorem c5_counterexample : ¬ momFallbackClaim := by
  intro hclaim
  have h := hclaim (some [none]) (some [some 1, some 2])
    (Or.inr ⟨[none], rfl, by decide⟩)
  rw [show fitSelect true (some [none]) (some [some 1, some 2]) =
      .error .degenerateFit from rfl,
    show fitSelect false (some [none]) (some [some 1, some 2]) =
      .ok [1, 2] from rfl] at h
  exact absurd h (by simp)

/-- C5 (amended): the estimator falls back to likelihood exactly when the
moments estimate is inapplicable (`None`); a moments result that is
non-empty and all-finite is used directly without consulting likelihood; a
moments result containing non-finite parameters fails with `DegenerateFit`
without falling back; and the likelihood path fails with `DegenerateFit`
iff the external fit raises, returns an empty tuple, or returns non-finite
parameters. -/
theorem c5_amended (momResult mleResult : Option (List (Option ℚ))) :
    (momResult = none →
      fitSelect true momResult mleResult = fitSelect false momResult mleResult) ∧
    (∀ ps, momResult = some ps → ps.all (·.isSome) = true → ps.length ≠ 0 →
      fitSelect true momResult mleResult = .ok (ps.filterMap id)) ∧
    (∀ ps, momResult = some ps → ¬ ps.all (·.isSome) = true →
      fitSelect true momResult mleResult = .error .degenerateFit) ∧
    (mleResult = none →
      fitSelect false momResult mleResult = .error .degenerateFit) ∧
    (∀ ps, mleResult = some ps → ps.all (·.isSome) = true → ps.length ≠ 0 →
      fitSelect false momResult mleResult = .ok (ps.filterMap id)) ∧
    (∀ ps, mleResult = some ps → ¬ ps.all (·.isSome) = true →
      fitSelect false momResult mleResult = .error .degenerateFit) := by
  refine ⟨?_, ?_, ?_, ?_, ?_, ?_⟩
  · intro h; subst h; rfl
  · intro ps h hall hlen
    subst h
    simp [fitSelect, hlen, hall]
  · intro ps h hall
    subst h
    by_cases hlen : ps.length = 0
    · simp [fitSelect, hlen]
    · simp [fitSelect, hlen, hall]
  · intro h; subst h; rfl
  · intro ps h hall hlen
    subst h
    simp [fitSelect, hlen, hall]
  · intro ps h hall
    subst h
    by_cases hlen : ps.length = 0
    · simp [fitSelect, hlen]
    · simp [fitSelect, hlen, hall]

/-- Witness for C5 (amended) at concrete fit outcomes. -/
theorem c5_witness :
    fitSelect true none (some [some 2, some 3]) =
      fitSelect false none (some [some 2, some 3]) ∧
    fitSelect true (some [some 4, some 0]) none = .ok [4, 0] ∧
    fitSelect true (some [none]) (some [some 2, some 3]) =
      .error .degenerateFit ∧
    fitSelect false (some [some 4, some 0]) none = .error .degenerateFit := by
  refine ⟨(c5_amended none (some [some 2, some 3])).1 rfl, ?_, ?_, ?_⟩
  · have h := (c5_amended (some [some 4, some 0]) none).2.1
      [some 4, some 0] rfl (by decide) (by decide)
    rw [h]; rfl
  · exact (c5_amended (some [none]) (some [some 2, some 3])).2.2.1
      [none] rfl (by decide)
  · exact (c5_amended (some [some 4, some 0]) none).2.2.2.1 rfl

/-! ### Claim C9 -/

/-- Counterexample to C9: for the canonical moments family (gumbel) a
series of exactly 3 equal positive values does not fail with
`DegenerateFit` — the moments estimator returns the finite parameters
`(loc = mean, scale = 0)`, validation passes, and the engine returns a
full result built from these degenerate parameters. -/
theorem c9_counterexample :
    computeFrequencyCurve opsC [some 4, some 4, some 4] "gumbel" "max" "mom"
        [] = .ok (.full (fullResultOf opsC "gumbel" [4, 4, 4] [4, 0] [])) ∧
    (fullResultOf opsC "gumbel" [4, 4, 4] [4, 0] []).parameters =
      ⟨none, 4, 0⟩ := by
  constructor
  · exact compute_flat opsC 4 (by norm_num) (by decide) []
  · rfl

/-- C9 (amended): for gumbel with the moments method, an all-equal series
of 3 positive values yields zero sample standard deviation, the moments
parameters `(loc = mean, scale = 0)` pass validation, and the engine
succeeds, returning a flat theoretical curve at the mean with no error and
no division by zero. -/
theorem c9_amended (ops : ExtOps) (c : ℚ) (hc : 0 < c) (hc12 : c < 10 ^ 12)
    (h0 : ops.sqrtQ 0 = 0) (rows : List (Option (List (Option ℚ)))) :
    computeFrequencyCurve ops [some c, some c, some c] "gumbel" "max" "mom"
        rows = .ok (.full (fullResultOf ops "gumbel" [c, c, c] [c, 0] rows)) ∧
    fitDistributionMom ops "gumbel" [c, c, c] = some [c, 0] ∧
    (fullResultOf ops "gumbel" [c, c, c] [c, 0] rows).parameters =
      ⟨none, c, 0⟩ ∧
    (∀ pt ∈ (fullResultOf ops "gumbel" [c, c, c] [c, 0]
      rows).theoretical_curve, pt.2 = c) := by
  refine ⟨compute_flat ops c hc h0 rows, momGumbel_flat ops c h0, rfl, ?_⟩
  intro pt hpt
  rw [(fullResult_flat_fields ops c hc hc12 h0 rows).1] at hpt
  rcases List.mem_map.mp hpt with ⟨p, _, rfl⟩
  rfl

/-- Witness for C9 (amended) at the concrete oracle and series `[4,4,4]`. -/
theorem c9_witness :
    (0 : ℚ) < 4 ∧ (4 : ℚ) < 10 ^ 12 ∧ opsC.sqrtQ 0 = 0 ∧
    (computeFrequencyCurve opsC [some 4, some 4, some 4] "gumbel" "max"
        "mom" [] =
      .ok (.full (fullResultOf opsC "gumbel" [4, 4, 4] [4, 0] []))) ∧
    (∀ pt ∈ (fullResultOf opsC "gumbel" [4, 4, 4] [4, 0]
      []).theoretical_curve, pt.2 = 4) := by
  have h := c9_amended opsC 4 (by norm_num) (by norm_num) (by decide) []
  exact ⟨by norm_num, by norm_num, by decide, h.1, h.2.2.2⟩

/-! ### Claim C7 -/

/-- C7: for every successful computation whose fitted quantile at 1%
exceedance probability is finite and below the observed maximum of the
series, the returned `quality_warnings` contain the high-severity
implausible-fit warning. -/
theorem c7_implausible_fit_warning (ops : ExtOps) (series : List (Option ℚ))
    (distributionName aggFunc method : String)
    (rows : List (Option (List (Option ℚ)))) (r : FreqResult)
    (params : List ℚ) (v : ℚ)
    (hres : computeFrequencyCurve ops series distributionName aggFunc method
      rows = .ok (.full r))
    (hsel : fitSelect (useMomFor method distributionName)
      ((fitDistributionMom ops distributionName
        (validValuesOf series)).map (List.map some))
      (ops.mleFit distributionName (validValuesOf series)) = .ok params)
    (hppf : ops.ppf distributionName params (1 - 1 / 100) = some v)
    (hpos : 0 < (validValuesOf series).max?.getD 0)
    (hv : v < (validValuesOf series).max?.getD 0) :
    QualityWarning.implausibleFit v ((validValuesOf series).max?.getD 0) ∈
      r.quality_warnings := by
  obtain ⟨params2, hsel2, hr, _⟩ := compute_full_inv hres
  have hps : params2 = params := by
    have := hsel2.symm.trans hsel
    exact Except.ok.inj this
  subst hps
  subst hr
  rw [fullResult_warnings_def]
  unfold qualityWarningsOf
  rw [hppf]
  have hcond1 : v < (validValuesOf series).max?.getD 0 * 10 := by nlinarith
  simp only [List.mem_append]
  refine Or.inr ?_
  simp [hcond1, hv]

/-- Witness for C7: with a quantile oracle returning 1 (below the maximum
4 of the series), the implausible-fit warning is present. -/
theorem c7_witness :
    ∃ r, computeFrequencyCurve opsD [some 4, some 4, some 4] "gumbel" "max"
        "mom" [] = .ok (.full r) ∧
      QualityWarning.implausibleFit 1 4 ∈ r.quality_warnings := by
  have hres := compute_flat opsD 4 (by norm_num) (by decide) []
  refine ⟨fullResultOf opsD "gumbel" [4, 4, 4] [4, 0] [], hres, ?_⟩
  have hval : validValuesOf [some 4, some 4, some 4] = [4, 4, 4] := by decide
  have hsel : fitSelect (useMomFor "mom" "gumbel")
      ((fitDistributionMom opsD "gumbel"
        (validValuesOf [some 4, some 4, some 4])).map (List.map some))
      (opsD.mleFit "gumbel" (validValuesOf [some 4, some 4, some 4])) =
      .ok [4, 0] := by
    rw [hval, momGumbel_flat opsD 4 (by decide)]
    exact fitSelect_flat 4 _
  have hppf : opsD.ppf "gumbel" [4, 0] (1 - 1 / 100) = some 1 := rfl
  have hmax : (validValuesOf [some 4, some 4, some 4]).max?.getD 0 = 4 := by
    rw [hval]
    simp [List.max?]
  have hmem := c7_implausible_fit_warning opsD [some 4, some 4, some 4]
    "gumbel" "max" "mom" [] (fullResultOf opsD "gumbel" [4, 4, 4] [4, 0] [])
    [4, 0] 1 hres hsel hppf (by rw [hmax]; norm_num) (by rw [hmax]; norm_num)
  rw [hmax] at hmem
  exact hmem

theorem ciSection_unfold (ops : ExtOps) (distributionName : String)
    (params : List ℚ) (qmaxF : List ℚ) (pPercentFixed : List ℚ)
    (rows : List (Option (List (Option ℚ)))) :
    ciSection ops distributionName params qmaxF pPercentFixed rows =
      (if (ciPciOf pPercentFixed).length < 5 then none
       else if (rows.filterMap id).isEmpty = true then none
       else ciBandOf ops distributionName params qmaxF
         (ciPciOf pPercentFixed) (rows.filterMap id)) := rfl

/-! ### Claim C4 -/

/-- The confidence-interval field of a computation result (`none` when the
computation did not produce a full result). -/
def resultCI : Except AnalysisError FreqOut → Option Band
  | .ok (.full r) => r.confidence_intervals
  | _ => none

/-- Equality of two computation outcomes in everything except the
confidence-interval field: same error, or same result fields apart from
`confidence_intervals`. -/
def eqExceptCI : Except AnalysisError FreqOut → Except AnalysisError FreqOut
    → Prop
  | .ok (.full r1), .ok (.full r2) =>
      r1.theoretical_curve = r2.theoretical_curve ∧
      r1.empirical_points = r2.empirical_points ∧
      r1.statistics = r2.statistics ∧
      r1.parameters = r2.parameters ∧
      r1.distribution = r2.distribution ∧
      r1.quality_warnings = r2.quality_warnings
  | .ok .empty, .ok .empty => True
  | .error e1, .error e2 => e1 = e2
  | _, _ => False

theorem compute_rows_immaterial (ops : ExtOps) (series : List (Option ℚ))
    (distributionName aggFunc method : String)
    (rows rows' : List (Option (List (Option ℚ)))) :
    eqExceptCI
      (computeFrequencyCurve ops series distributionName aggFunc method rows)
      (computeFrequencyCurve ops series distributionName aggFunc method
        rows') := by
  rw [compute_unfold, compute_unfold]
  by_cases h1 : ¬ validateAggFunc aggFunc = true
  · rw [if_pos h1, if_pos h1]; exact rfl
  rw [if_neg h1, if_neg h1]
  by_cases h2 : distributionName ∉ supportedDistributions
  · rw [if_pos h2, if_pos h2]; exact rfl
  rw [if_neg h2, if_neg h2]
  by_cases h3 : method ∉ validMethods
  · rw [if_pos h3, if_pos h3]; exact rfl
  rw [if_neg h3, if_neg h3]
  by_cases h4 : (series.filterMap id).isEmpty = true
  · rw [if_pos h4, if_pos h4]; exact trivial
  rw [if_neg h4, if_neg h4]
  by_cases h5 : (validValuesOf series).isEmpty = true
  · rw [if_pos h5, if_pos h5]; exact rfl
  rw [if_neg h5, if_neg h5]
  by_cases h6 : (validValuesOf series).length < 3
  · rw [if_pos h6, if_pos h6]; exact rfl
  rw [if_neg h6, if_neg h6]
  cases hsel : fitSelect (useMomFor method distributionName)
      ((fitDistributionMom ops distributionName
        (validValuesOf series)).map (List.map some))
      (ops.mleFit distributionName (validValuesOf series)) with
  | error e => exact rfl
  | ok params => exact ⟨rfl, rfl, rfl, rfl, rfl, rfl⟩

/-- C4: the band is computed only under the gate (`n ≥ 20` and an
allow-listed distribution); a failed gate, an all-failed bootstrap, or
fewer than 30% valid positions each yield `confidence_intervals = none`;
and the bootstrap outcome can never change the success/failure or any
other field of the result. -/
theorem c4_ci_gating_and_failure (ops : ExtOps) (series : List (Option ℚ))
    (distributionName aggFunc method : String) (params : List ℚ)
    (qmaxF : List ℚ) (pPercentFixed : List ℚ)
    (rows rows' : List (Option (List (Option ℚ)))) :
    (∀ r, computeFrequencyCurve ops series distributionName aggFunc method
        rows = .ok (.full r) →
      ¬ (20 ≤ (validValuesOf series).length ∧
          distributionName ∈ fastDistributions) →
      r.confidence_intervals = none) ∧
    (rows.all (·.isNone) = true →
      ciSection ops distributionName params qmaxF pPercentFixed rows =
        none) ∧
    ((((ciValidMaskOf ops distributionName params qmaxF
          (ciPciOf pPercentFixed) (rows.filterMap id)).filter id).length : ℚ)
        < ((ciPciOf pPercentFixed).length : ℚ) * (3 / 10) →
      ciSection ops distributionName params qmaxF pPercentFixed rows =
        none) ∧
    eqExceptCI
      (computeFrequencyCurve ops series distributionName aggFunc method rows)
      (computeFrequencyCurve ops series distributionName aggFunc method
        rows') := by
  refine ⟨?_, ?_, ?_,
    compute_rows_immaterial ops series distributionName aggFunc method rows
      rows'⟩
  · intro r hres hgate
    obtain ⟨params2, _, hr, _⟩ := compute_full_inv hres
    subst hr
    rw [fullResult_ci_def, if_neg hgate]
  · intro hall
    rw [ciSection_unfold]
    split
    · rfl
    have hnil : rows.filterMap id = [] := by
      rw [List.filterMap_eq_nil_iff]
      intro a ha
      have := List.all_eq_true.mp hall a ha
      exact Option.isNone_iff_eq_none.mp this
    rw [hnil]
    rfl
  · intro hlow
    rw [ciSection_unfold]
    split
    · rfl
    split
    · rfl
    unfold ciBandOf
    rw [if_pos hlow]

/-- Witness for C4 at concrete inputs: a small series fails the gate, an
all-failed bootstrap and a low valid count disable the band, and two
different bootstrap outcomes agree on everything but the band. -/
theorem c4_witness :
    (∀ r, computeFrequencyCurve opsC [some 4, some 4, some 4] "gumbel"
        "max" "mom" [some [some 1]] = .ok (.full r) →
      ¬ (20 ≤ (validValuesOf [some 4, some 4, some 4]).length ∧
          "gumbel" ∈ fastDistributions) →
      r.confidence_intervals = none) ∧
    (ciSection opsC "gumbel" [4, 0] [4, 4, 4] [10, 20, 30, 40, 50]
      [none, none] = none) ∧
    eqExceptCI
      (computeFrequencyCurve opsC [some 4, some 4, some 4] "gumbel" "max"
        "mom" [some [some 1]])
      (computeFrequencyCurve opsC [some 4, some 4, some 4] "gumbel" "max"
        "mom" [none]) := by
  have h := c4_ci_gating_and_failure opsC [some 4, some 4, some 4] "gumbel"
    "max" "mom" [4, 0] [4, 4, 4] [10, 20, 30, 40, 50] [some [some 1]] [none]
  have h2 := c4_ci_gating_and_failure opsC [some 4, some 4, some 4] "gumbel"
    "max" "mom" [4, 0] [4, 4, 4] [10, 20, 30, 40, 50] [none, none] [none]
  exact ⟨h.1, h2.2.1 (by decide), h.2.2.2⟩

/-! ### Claim C6 -/

theorem isEmpty_eq_of_perm {α : Type} {l l' : List α} (hp : l.Perm l') :
    l.isEmpty = l'.isEmpty := by
  have hlen := hp.length_eq
  cases l <;> cases l' <;> simp_all

theorem sortAsc_eq_of_perm {l l' : List ℚ} (hp : l.Perm l') :
    l.insertionSort (· ≤ ·) = l'.insertionSort (· ≤ ·) := by
  have hperm : (l.insertionSort (· ≤ ·)).Perm (l'.insertionSort (· ≤ ·)) :=
    ((List.perm_insertionSort _ l).trans hp).trans
      (List.perm_insertionSort _ l').symm
  exact List.eq_of_perm_of_sorted hperm
    (List.sorted_insertionSort _ l) (List.sorted_insertionSort _ l')

theorem percentileNan_perm (q : ℚ) {col col' : List ℚ} (hp : col.Perm col') :
    percentileNan q col = percentileNan q col' := by
  unfold percentileNan
  have hlen : col.length = col'.length := hp.length_eq
  rw [isEmpty_eq_of_perm hp, sortAsc_eq_of_perm hp]

theorem columnOf_perm {rowsOk rowsOk' : List (List (Option ℚ))}
    (hp : rowsOk.Perm rowsOk') (j : Nat) :
    (columnOf rowsOk j).Perm (columnOf rowsOk' j) :=
  hp.filterMap _

theorem ciLowerOf_perm (pci : List ℚ) {rowsOk rowsOk' : List (List (Option ℚ))}
    (hp : rowsOk.Perm rowsOk') :
    ciLowerOf pci rowsOk = ciLowerOf pci rowsOk' := by
  unfold ciLowerOf
  exact List.map_congr_left (fun j _ =>
    percentileNan_perm _ (columnOf_perm hp j))

theorem ciUpperOf_perm (pci : List ℚ) {rowsOk rowsOk' : List (List (Option ℚ))}
    (hp : rowsOk.Perm rowsOk') :
    ciUpperOf pci rowsOk = ciUpperOf pci rowsOk' := by
  unfold ciUpperOf
  exact List.map_congr_left (fun j _ =>
    percentileNan_perm _ (columnOf_perm hp j))

theorem ciSwappedOf_perm (ops : ExtOps) (distributionName : String)
    (params : List ℚ) (pci : List ℚ)
    {rowsOk rowsOk' : List (List (Option ℚ))} (hp : rowsOk.Perm rowsOk') :
    ciSwappedOf ops distributionName params pci rowsOk =
      ciSwappedOf ops distributionName params pci rowsOk' := by
  unfold ciSwappedOf
  rw [ciLowerOf_perm pci hp, ciUpperOf_perm pci hp]

theorem ciValidMaskOf_perm (ops : ExtOps) (distributionName : String)
    (params : List ℚ) (qmaxF : List ℚ) (pci : List ℚ)
    {rowsOk rowsOk' : List (List (Option ℚ))} (hp : rowsOk.Perm rowsOk') :
    ciValidMaskOf ops distributionName params qmaxF pci rowsOk =
      ciValidMaskOf ops distributionName params qmaxF pci rowsOk' := by
  unfold ciValidMaskOf
  rw [ciSwappedOf_perm ops distributionName params pci hp]

theorem ciBandOf_perm (ops : ExtOps) (distributionName : String)
    (params : List ℚ) (qmaxF : List ℚ) (pci : List ℚ)
    {rowsOk rowsOk' : List (List (Option ℚ))} (hp : rowsOk.Perm rowsOk') :
    ciBandOf ops distributionName params qmaxF pci rowsOk =
      ciBandOf ops distributionName params qmaxF pci rowsOk' := by
  unfold ciBandOf ciAssembleOf
  rw [ciSwappedOf_perm ops distributionName params pci hp,
    ciValidMaskOf_perm ops distributionName params qmaxF pci hp]

theorem ciSection_perm (ops : ExtOps) (distributionName : String)
    (params : List ℚ) (qmaxF : List ℚ) (pPercentFixed : List ℚ)
    {rows rows' : List (Option (List (Option ℚ)))} (hp : rows.Perm rows') :
    ciSection ops distributionName params qmaxF pPercentFixed rows =
      ciSection ops distributionName params qmaxF pPercentFixed rows' := by
  rw [ciSection_unfold, ciSection_unfold]
  have hpok : (rows.filterMap id).Perm (rows'.filterMap id) := hp.filterMap _
  rw [isEmpty_eq_of_perm hpok]
  split
  · rfl
  split
  · rfl
  exact ciBandOf_perm ops distributionName params qmaxF _ hpok

theorem fullResultOf_perm (ops : ExtOps) (distributionName : String)
    (qmaxF : List ℚ) (params : List ℚ)
    {rows rows' : List (Option (List (Option ℚ)))} (hp : rows.Perm rows') :
    fullResultOf ops distributionName qmaxF params rows =
      fullResultOf ops distributionName qmaxF params rows' := by
  have hci := ciSection_perm ops distributionName params qmaxF
    ((theoreticalPairs ops distributionName params (meanOf qmaxF)
      (stdOf ops qmaxF) (pPercentFixedOf ops)).map Prod.fst) hp
  simp only [fullResultOf]
  rw [hci]

/-- C6: two invocations with identical series, distribution, aggregation
function, fitting method and identical per-iteration bootstrap outcomes
produce identical output, regardless of the completion order of the
bootstrap iterations (the engine is a pure function and percentile
aggregation is permutation-invariant). -/
theorem c6_determinism (ops : ExtOps) (series : List (Option ℚ))
    (distributionName aggFunc method : String)
    (rows rows' : List (Option (List (Option ℚ)))) (hp : rows.Perm rows') :
    computeFrequencyCurve ops series distributionName aggFunc method rows =
      computeFrequencyCurve ops series distributionName aggFunc method
        rows' := by
  rw [compute_unfold, compute_unfold]
  by_cases h1 : ¬ validateAggFunc aggFunc = true
  · rw [if_pos h1, if_pos h1]
  rw [if_neg h1, if_neg h1]
  by_cases h2 : distributionName ∉ supportedDistributions
  · rw [if_pos h2, if_pos h2]
  rw [if_neg h2, if_neg h2]
  by_cases h3 : method ∉ validMethods
  · rw [if_pos h3, if_pos h3]
  rw [if_neg h3, if_neg h3]
  by_cases h4 : (series.filterMap id).isEmpty = true
  · rw [if_pos h4, if_pos h4]
  rw [if_neg h4, if_neg h4]
  by_cases h5 : (validValuesOf series).isEmpty = true
  · rw [if_pos h5, if_pos h5]
  rw [if_neg h5, if_neg h5]
  by_cases h6 : (validValuesOf series).length < 3
  · rw [if_pos h6, if_pos h6]
  rw [if_neg h6, if_neg h6]
  cases hsel : fitSelect (useMomFor method distributionName)
      ((fitDistributionMom ops distributionName
        (validValuesOf series)).map (List.map some))
      (ops.mleFit distributionName (validValuesOf series)) with
  | error e => rfl
  | ok params =>
      dsimp only
      rw [fullResultOf_perm ops distributionName (validValuesOf series)
        params hp]

/-- Witness for C6: swapping the completion order of two bootstrap
iterations leaves the result unchanged. -/
theorem c6_witness :
    computeFrequencyCurve opsC [some 4, some 4, some 4] "gumbel" "max" "mom"
        [some [some 1], none] =
      computeFrequencyCurve opsC [some 4, some 4, some 4] "gumbel" "max"
        "mom" [none, some [some 1]] :=
  c6_determinism opsC [some 4, some 4, some 4] "gumbel" "max" "mom"
    [some [some 1], none] [none, some [some 1]]
    (List.Perm.swap none (some [some 1]) [])

/-! ### Claim C3: lemmas on bands -/

theorem lookup_mem {l : List (ℚ × ℚ)} {p q : ℚ}
    (h : l.lookup p = some q) : (p, q) ∈ l := by
  induction l with
  | nil => simp [List.lookup] at h
  | cons x xs ih =>
      obtain ⟨k, v⟩ := x
      by_cases hpk : p = k
      · subst hpk
        simp [List.lookup] at h
        subst h
        exact List.mem_cons_self _ _
      · have hb : (p == k) = false := beq_eq_false_iff_ne.mpr hpk
        rw [List.lookup, hb] at h
        exact List.mem_cons_of_mem _ (ih h)

theorem lookup_isSome_of_key_mem {l : List (ℚ × ℚ)} {p : ℚ}
    (h : p ∈ l.map Prod.fst) : ∃ q, l.lookup p = some q := by
  induction l with
  | nil => simp at h
  | cons x xs ih =>
      obtain ⟨k, v⟩ := x
      by_cases hpk : p = k
      · subst hpk
        exact ⟨v, by simp [List.lookup]⟩
      · have hb : (p == k) = false := beq_eq_false_iff_ne.mpr hpk
        rw [List.lookup, hb]
        rw [List.map_cons, List.mem_cons] at h
        rcases h with h1 | h1
        · exact absurd h1 hpk
        · exact ih h1

theorem mem_dedupSorted {α : Type} [DecidableEq α] {x : α} :
    ∀ {l : List α}, x ∈ dedupSorted l → x ∈ l
  | [], h => by simp [dedupSorted] at h
  | [a], h => by simpa [dedupSorted] using h
  | a :: b :: rest, h => by
      rw [dedupSorted] at h
      by_cases hab : a = b
      · rw [if_pos hab] at h
        exact List.mem_cons_of_mem _ (mem_dedupSorted h)
      · rw [if_neg hab] at h
        rcases List.mem_cons.mp h with h1 | h1
        · exact h1 ▸ List.mem_cons_self _ _
        · exact List.mem_cons_of_mem _ (mem_dedupSorted h1)

theorem pairwise_lt_dedupSorted {α : Type} [LinearOrder α] [DecidableEq α] :
    ∀ {l : List α}, List.Sorted (· ≤ ·) l →
      List.Pairwise (· < ·) (dedupSorted l)
  | [], _ => by simp [dedupSorted]
  | [a], _ => by simp [dedupSorted]
  | a :: b :: rest, hs => by
      rw [dedupSorted]
      have hab2 : a ≤ b := (List.sorted_cons.mp hs).1 b (by simp)
      by_cases hab : a = b
      · rw [if_pos hab]
        exact pairwise_lt_dedupSorted hs.of_cons
      · rw [if_neg hab]
        refine List.pairwise_cons.mpr
          ⟨?_, pairwise_lt_dedupSorted hs.of_cons⟩
        intro y hy
        rcases List.mem_cons.mp (mem_dedupSorted hy) with h1 | h1
        · exact h1 ▸ lt_of_le_of_ne hab2 hab
        · have hby : b ≤ y := (List.sorted_cons.mp hs.of_cons).1 y h1
          exact lt_of_lt_of_le (lt_of_le_of_ne hab2 hab) hby

theorem pairwise_lt_sortedSet {α : Type} [LinearOrder α] [DecidableEq α]
    (l : List α) : List.Pairwise (· < ·) (sortedSet l) := by
  unfold sortedSet
  exact pairwise_lt_dedupSorted (List.sorted_insertionSort _ l)

theorem mem_sortedSet {α : Type} [LinearOrder α] [DecidableEq α] {x : α}
    {l : List α} (h : x ∈ sortedSet l) : x ∈ l := by
  have h1 := mem_dedupSorted h
  rw [List.mem_insertionSort] at h1
  exact h1

/-- Invariant of claim C3: for every probability key present in both
sequences, the lower value is at most the upper value. -/
def BandOK (low up : List (ℚ × ℚ)) : Prop :=
  ∀ p ql qu, (p, ql) ∈ low → (p, qu) ∈ up → ql ≤ qu

theorem bandOK_sub {low up low' up' : List (ℚ × ℚ)} (h : BandOK low up)
    (hL : ∀ x, x ∈ low' → x ∈ low) (hU : ∀ x, x ∈ up' → x ∈ up) :
    BandOK low' up' :=
  fun p ql qu h1 h2 => h p ql qu (hL _ h1) (hU _ h2)

theorem eq_of_key_unique {T : Type} (f : T → ℚ) {l : List T}
    (hkeys : List.Pairwise (fun t s => f t ≠ f s) l) {t s : T}
    (ht : t ∈ l) (hs : s ∈ l) (hf : f t = f s) : t = s := by
  by_contra hne
  have hsym : Symmetric (fun t s : T => f t ≠ f s) :=
    fun _ _ h12 he => h12 he.symm
  exact (hkeys.forall hsym ht hs hne) hf

theorem bandOK_mapPairs (triples : List (ℚ × ℚ × ℚ))
    (hkeys : List.Pairwise (fun t s : ℚ × ℚ × ℚ => t.1 ≠ s.1) triples)
    (hguard : ∀ t ∈ triples, t.2.1 ≤ t.2.2) :
    BandOK (triples.map (fun t => (t.1, t.2.1)))
      (triples.map (fun t => (t.1, t.2.2))) := by
  intro p ql qu h1 h2
  rcases List.mem_map.mp h1 with ⟨t, ht, hte⟩
  rcases List.mem_map.mp h2 with ⟨s, hs, hse⟩
  have ht1 : t.1 = p := congrArg Prod.fst hte
  have ht2 : t.2.1 = ql := congrArg Prod.snd hte
  have hs1 : s.1 = p := congrArg Prod.fst hse
  have hs2 : s.2.2 = qu := congrArg Prod.snd hse
  have hts : t = s := eq_of_key_unique (fun t => t.1) hkeys ht hs
    (ht1.trans hs1.symm)
  subst hts
  rw [← ht2, ← hs2]
  exact hguard t ht

theorem bandOK_guardPairs (triples : List (ℚ × ℚ × ℚ))
    (hkeys : List.Pairwise (fun t s : ℚ × ℚ × ℚ => t.1 ≠ s.1) triples) :
    BandOK
      (triples.filterMap (fun t =>
        if t.2.1 < t.2.2 ∧ 0 ≤ t.2.1 then some (t.1, t.2.1) else none))
      (triples.filterMap (fun t =>
        if t.2.1 < t.2.2 ∧ 0 ≤ t.2.1 then some (t.1, t.2.2) else none)) := by
  intro p ql qu h1 h2
  rcases List.mem_filterMap.mp h1 with ⟨t, ht, hte⟩
  rcases List.mem_filterMap.mp h2 with ⟨s, hs, hse⟩
  by_cases hgt : t.2.1 < t.2.2 ∧ 0 ≤ t.2.1
  · rw [if_pos hgt] at hte
    by_cases hgs : s.2.1 < s.2.2 ∧ 0 ≤ s.2.1
    · rw [if_pos hgs] at hse
      have hte2 := Option.some.inj hte
      have hse2 := Option.some.inj hse
      have ht1 : t.1 = p := congrArg Prod.fst hte2
      have ht2 : t.2.1 = ql := congrArg Prod.snd hte2
      have hs1 : s.1 = p := congrArg Prod.fst hse2
      have hs2 : s.2.2 = qu := congrArg Prod.snd hse2
      have hts : t = s := eq_of_key_unique (fun t => t.1) hkeys ht hs
        (ht1.trans hs1.symm)
      subst hts
      rw [← ht2, ← hs2]
      exact le_of_lt hgt.1
    · rw [if_neg hgs] at hse
      exact absurd hse (by simp)
  · rw [if_neg hgt] at hte
    exact absurd hte (by simp)

/-- Lower point list of the assembly stage (valid positions with their
lower bounds, sorted by probability), named form of the `lower_points`
binding inside `ciAssembleOf`. -/
def ciLowerPointsOf (ops : ExtOps) (distributionName : String)
    (params : List ℚ) (qmaxF : List ℚ) (pci : List ℚ)
    (rowsOk : List (List (Option ℚ))) : List (ℚ × ℚ) :=
  ((List.range pci.length).filterMap (fun i =>
    if (ciValidMaskOf ops distributionName params qmaxF pci rowsOk).getD i
        false then
      (((ciSwappedOf ops distributionName params pci rowsOk).getD i
        (none, none)).1).map (fun lv => (pci.getD i 0, lv))
    else none)).insertionSort (fun a b => a.1 ≤ b.1)

/-- Upper point list of the assembly stage, named form of the
`upper_points` binding inside `ciAssembleOf`. -/
def ciUpperPointsOf (ops : ExtOps) (distributionName : String)
    (params : List ℚ) (qmaxF : List ℚ) (pci : List ℚ)
    (rowsOk : List (List (Option ℚ))) : List (ℚ × ℚ) :=
  ((List.range pci.length).filterMap (fun i =>
    if (ciValidMaskOf ops distributionName params qmaxF pci rowsOk).getD i
        false then
      (((ciSwappedOf ops distributionName params pci rowsOk).getD i
        (none, none)).2).map (fun uv => (pci.getD i 0, uv))
    else none)).insertionSort (fun a b => a.1 ≤ b.1)

/-- Probability keys appearing in both point lists, named form of the
`common_p` binding inside `ciAssembleOf`. -/
def ciCommonPOf (ops : ExtOps) (distributionName : String)
    (params : List ℚ) (qmaxF : List ℚ) (pci : List ℚ)
    (rowsOk : List (List (Option ℚ))) : List ℚ :=
  sortedSet
    (((ciLowerPointsOf ops distributionName params qmaxF pci
        rowsOk).map Prod.fst).filter (fun p =>
      p ∈ (ciUpperPointsOf ops distributionName params qmaxF pci
        rowsOk).map Prod.fst))

/-- Matched `(p, lower, upper)` triples surviving the safety filter of
lines 1112–1119, named form of the temporary lists inside
`ciAssembleOf`. -/
def ciTempTriplesOf (ops : ExtOps) (distributionName : String)
    (params : List ℚ) (qmaxF : List ℚ) (pci : List ℚ)
    (rowsOk : List (List (Option ℚ))) : List (ℚ × ℚ × ℚ) :=
  (ciCommonPOf ops distributionName params qmaxF pci rowsOk).filterMap
    (fun p =>
      match (ciLowerPointsOf ops distributionName params qmaxF pci
          rowsOk).lookup p,
        (ciUpperPointsOf ops distributionName params qmaxF pci
          rowsOk).lookup p with
      | some lq, some uq =>
          if lq < uq ∧ 0 ≤ lq then some (p, lq, uq) else none
      | _, _ => none)

/-- Band after the adaptive-compaction stage of lines 1121–1173, named
form of the `compacted` binding inside `ciAssembleOf`. -/
def ciCompactedOf (ops : ExtOps) (distributionName : String)
    (params : List ℚ) (qmaxF : List ℚ) (pci : List ℚ)
    (rowsOk : List (List (Option ℚ))) : Band :=
  if 300 < ((ciTempTriplesOf ops distributionName params qmaxF pci
      rowsOk).map (fun t => (t.1, t.2.1))).length then
    ((compactionIndices ((weibullPositions qmaxF.length).min?.getD 0)
        ((weibullPositions qmaxF.length).max?.getD 0)
        (((ciTempTriplesOf ops distributionName params qmaxF pci
          rowsOk).map (fun t => (t.1, t.2.1))).map Prod.fst)).filterMap
      (fun i => ((ciTempTriplesOf ops distributionName params qmaxF pci
        rowsOk).map (fun t => (t.1, t.2.1))).get? i),
     (compactionIndices ((weibullPositions qmaxF.length).min?.getD 0)
        ((weibullPositions qmaxF.length).max?.getD 0)
        (((ciTempTriplesOf ops distributionName params qmaxF pci
          rowsOk).map (fun t => (t.1, t.2.1))).map Prod.fst)).filterMap
      (fun i => ((ciTempTriplesOf ops distributionName params qmaxF pci
        rowsOk).map (fun t => (t.1, t.2.2))).get? i))
  else
    ((ciTempTriplesOf ops distributionName params qmaxF pci rowsOk).map
      (fun t => (t.1, t.2.1)),
     (ciTempTriplesOf ops distributionName params qmaxF pci rowsOk).map
      (fun t => (t.1, t.2.2)))

theorem ciAssembleOf_eq (ops : ExtOps) (distributionName : String)
    (params : List ℚ) (qmaxF : List ℚ) (pci : List ℚ)
    (rowsOk : List (List (Option ℚ))) :
    ciAssembleOf ops distributionName params qmaxF pci rowsOk =
      gapInterpolate
        ((ciCompactedOf ops distributionName params qmaxF pci
          rowsOk).1.insertionSort (fun a b => a.1 ≤ b.1))
        ((ciCompactedOf ops distributionName params qmaxF pci
          rowsOk).2.insertionSort (fun a b => a.1 ≤ b.1)) := rfl

theorem keys_pairwise_filterMap {T : Type} (g : T → ℚ) (f : ℚ → Option T)
    (hf : ∀ p t, f p = some t → g t = p) {l : List ℚ}
    (hl : List.Pairwise (· < ·) l) :
    List.Pairwise (fun t s => g t ≠ g s) (l.filterMap f) := by
  rw [List.pairwise_filterMap]
  refine hl.imp ?_
  intro a b hab t ht s hs
  rw [hf a t ht, hf b s hs]
  exact ne_of_lt hab

theorem pairwise_lt_arangeQ (start stop : ℚ) :
    List.Pairwise (· < ·) (arangeQ start stop 1) := by
  unfold arangeQ
  refine List.pairwise_map.mpr ?_
  refine (List.pairwise_lt_range _).imp ?_
  intro i j hij
  have hq : (i : ℚ) < (j : ℚ) := by exact_mod_cast hij
  nlinarith

theorem keys_pairwise_gridTriples (commonP : List ℚ)
    (finalLower finalUpper : List (ℚ × ℚ)) :
    List.Pairwise (fun t s : ℚ × ℚ × ℚ => t.1 ≠ s.1)
      (gridTriplesOf commonP finalLower finalUpper) := by
  unfold gridTriplesOf
  refine List.pairwise_map.mpr ?_
  refine (pairwise_lt_arangeQ _ _).imp ?_
  intro a b hab
  exact ne_of_lt hab

theorem bandOK_gridPair (commonP : List ℚ)
    (finalLower finalUpper : List (ℚ × ℚ)) :
    BandOK (gridLowerOf commonP finalLower finalUpper)
      (gridUpperOf commonP finalLower finalUpper) := by
  unfold gridLowerOf gridUpperOf
  exact bandOK_guardPairs _
    (keys_pairwise_gridTriples commonP finalLower finalUpper)

theorem bandOK_rebuild (common : List ℚ) (L U : List (ℚ × ℚ))
    (h : BandOK L U)
    (hc : ∀ p ∈ common, p ∈ L.map Prod.fst ∧ p ∈ U.map Prod.fst) :
    BandOK (common.map (fun p => (p, (L.lookup p).getD 0)))
      (common.map (fun p => (p, (U.lookup p).getD 0))) := by
  intro p ql qu h1 h2
  rcases List.mem_map.mp h1 with ⟨p1, hp1, he1⟩
  rcases List.mem_map.mp h2 with ⟨p2, hp2, he2⟩
  have hp1p : p1 = p := congrArg Prod.fst he1
  have hq1 : (L.lookup p1).getD 0 = ql := congrArg Prod.snd he1
  have hp2p : p2 = p := congrArg Prod.fst he2
  have hq2 : (U.lookup p2).getD 0 = qu := congrArg Prod.snd he2
  have hpp : p1 = p2 := hp1p.trans hp2p.symm
  obtain ⟨hL, hUa⟩ := hc p1 hp1
  obtain ⟨hLa, hU⟩ := hc p2 hp2
  obtain ⟨lq, hlq⟩ := lookup_isSome_of_key_mem hL
  obtain ⟨uq, huq⟩ := lookup_isSome_of_key_mem hU
  rw [hlq] at hq1
  rw [huq] at hq2
  simp only [Option.getD_some] at hq1 hq2
  rw [← hq1, ← hq2]
  have hlmem := lookup_mem hlq
  have humem := lookup_mem huq
  rw [← hpp] at humem
  exact h p1 lq uq hlmem humem

theorem mem_gapCommonOf {finalLower finalUpper : List (ℚ × ℚ)} {p : ℚ}
    (h : p ∈ gapCommonOf finalLower finalUpper) :
    p ∈ finalLower.map Prod.fst ∧ p ∈ finalUpper.map Prod.fst := by
  unfold gapCommonOf at h
  have h1 := mem_sortedSet h
  rw [List.mem_filter] at h1
  exact ⟨h1.1, by simpa using h1.2⟩

theorem bandOK_gapNoGapBand (finalLower finalUpper : List (ℚ × ℚ))
    (h : BandOK finalLower finalUpper) :
    BandOK
      (gapNoGapBand (gapCommonOf finalLower finalUpper) finalLower
        finalUpper).1
      (gapNoGapBand (gapCommonOf finalLower finalUpper) finalLower
        finalUpper).2 := by
  unfold gapNoGapBand
  exact bandOK_rebuild _ _ _ h (fun p hp => mem_gapCommonOf hp)

theorem bandOK_gapFewBand (finalLower finalUpper : List (ℚ × ℚ))
    (h : BandOK finalLower finalUpper) :
    BandOK
      (gapFewBand (gapCommonOf finalLower finalUpper) finalLower
        finalUpper).1
      (gapFewBand (gapCommonOf finalLower finalUpper) finalLower
        finalUpper).2 := by
  unfold gapFewBand
  intro p ql qu h1 h2
  rcases List.mem_filterMap.mp h1 with ⟨p1, hp1, he1⟩
  rcases List.mem_filterMap.mp h2 with ⟨p2, hp2, he2⟩
  by_cases hg1 : p1 ∈ finalUpper.map Prod.fst
  · rw [if_pos hg1] at he1
    by_cases hg2 : p2 ∈ finalUpper.map Prod.fst
    · rw [if_pos hg2] at he2
      have he1' := Option.some.inj he1
      have he2' := Option.some.inj he2
      have hp1p : p1 = p := congrArg Prod.fst he1'
      have hq1 : (finalLower.lookup p1).getD 0 = ql :=
        congrArg Prod.snd he1'
      have hp2p : p2 = p := congrArg Prod.fst he2'
      have hq2 : (finalUpper.lookup p2).getD 0 = qu :=
        congrArg Prod.snd he2'
      have hpp : p1 = p2 := hp1p.trans hp2p.symm
      have hL : p1 ∈ finalLower.map Prod.fst := (mem_gapCommonOf hp1).1
      obtain ⟨lq, hlq⟩ := lookup_isSome_of_key_mem hL
      obtain ⟨uq, huq⟩ := lookup_isSome_of_key_mem hg2
      rw [hlq] at hq1
      rw [huq] at hq2
      simp only [Option.getD_some] at hq1 hq2
      rw [← hq1, ← hq2]
      have hlmem := lookup_mem hlq
      have humem := lookup_mem huq
      rw [← hpp] at humem
      exact h p1 lq uq hlmem humem
    · rw [if_neg hg2] at he2
      exact absurd he2 (by simp)
  · rw [if_neg hg1] at he1
    exact absurd he1 (by simp)

theorem bandOK_gapGridBand (commonP : List ℚ)
    (finalLower finalUpper : List (ℚ × ℚ)) :
    BandOK (gapGridBand commonP finalLower finalUpper).1
      (gapGridBand commonP finalLower finalUpper).2 := by
  unfold gapGridBand
  refine bandOK_rebuild _ _ _ (bandOK_gridPair commonP finalLower
    finalUpper) ?_
  intro p hp
  have h1 := mem_sortedSet hp
  rw [List.mem_filter] at h1
  exact ⟨h1.1, by simpa using h1.2⟩

theorem bandOK_gapInterpolate {finalLower finalUpper : List (ℚ × ℚ)}
    (h : BandOK finalLower finalUpper) :
    BandOK (gapInterpolate finalLower finalUpper).1
      (gapInterpolate finalLower finalUpper).2 := by
  unfold gapInterpolate
  by_cases h1 : 2 < finalLower.length ∧ 2 < finalUpper.length
  · rw [if_pos h1]
    by_cases h2 : 2 < (gapCommonOf finalLower finalUpper).length
    · rw [if_pos h2]
      by_cases h3 : ((gapCommonOf finalLower finalUpper).zip
          (gapCommonOf finalLower finalUpper).tail).any
          (fun pq => 5 < pq.2 - pq.1) = true
      · rw [if_pos h3]
        exact bandOK_gapGridBand _ _ _
      · rw [if_neg h3]
        exact bandOK_gapNoGapBand _ _ h
    · rw [if_neg h2]
      exact bandOK_gapFewBand _ _ h
  · rw [if_neg h1]
    exact h

theorem guard_ciTempTriplesOf (ops : ExtOps) (distributionName : String)
    (params : List ℚ) (qmaxF : List ℚ) (pci : List ℚ)
    (rowsOk : List (List (Option ℚ))) :
    ∀ t ∈ ciTempTriplesOf ops distributionName params qmaxF pci rowsOk,
      t.2.1 < t.2.2 ∧ 0 ≤ t.2.1 := by
  intro t ht
  unfold ciTempTriplesOf at ht
  rcases List.mem_filterMap.mp ht with ⟨p, hp, he⟩
  cases hL : (ciLowerPointsOf ops distributionName params qmaxF pci
      rowsOk).lookup p with
  | none =>
      rw [hL] at he
      cases hU : (ciUpperPointsOf ops distributionName params qmaxF pci
          rowsOk).lookup p <;> rw [hU] at he <;> exact absurd he (by simp)
  | some lq =>
      rw [hL] at he
      cases hU : (ciUpperPointsOf ops distributionName params qmaxF pci
          rowsOk).lookup p with
      | none =>
          rw [hU] at he
          exact absurd he (by simp)
      | some uq =>
          rw [hU] at he
          dsimp only at he
          by_cases hg : lq < uq ∧ 0 ≤ lq
          · rw [if_pos hg] at he
            have he' := Option.some.inj he
            rw [← he']
            exact hg
          · rw [if_neg hg] at he
            exact absurd he (by simp)

theorem keys_ciTempTriplesOf (ops : ExtOps) (distributionName : String)
    (params : List ℚ) (qmaxF : List ℚ) (pci : List ℚ)
    (rowsOk : List (List (Option ℚ))) :
    List.Pairwise (fun t s : ℚ × ℚ × ℚ => t.1 ≠ s.1)
      (ciTempTriplesOf ops distributionName params qmaxF pci rowsOk) := by
  unfold ciTempTriplesOf
  refine keys_pairwise_filterMap (fun t : ℚ × ℚ × ℚ => t.1) _ ?_ ?_
  · intro p t hpt
    revert hpt
    cases hL : (ciLowerPointsOf ops distributionName params qmaxF pci
        rowsOk).lookup p with
    | none =>
        cases hU : (ciUpperPointsOf ops distributionName params qmaxF pci
            rowsOk).lookup p <;> intro hpt <;> exact absurd hpt (by simp)
    | some lq =>
        cases hU : (ciUpperPointsOf ops distributionName params qmaxF pci
            rowsOk).lookup p with
        | none => intro hpt; exact absurd hpt (by simp)
        | some uq =>
            intro hpt
            dsimp only at hpt
            by_cases hg : lq < uq ∧ 0 ≤ lq
            · rw [if_pos hg] at hpt
              have := Option.some.inj hpt
              rw [← this]
            · rw [if_neg hg] at hpt
              exact absurd hpt (by simp)
  · unfold ciCommonPOf
    exact pairwise_lt_sortedSet _

theorem bandOK_compactSelT (T : List (ℚ × ℚ × ℚ)) (sel : List Nat)
    (h : BandOK (T.map (fun t => (t.1, t.2.1)))
      (T.map (fun t => (t.1, t.2.2)))) :
    BandOK
      (sel.filterMap (fun i => (T.map (fun t => (t.1, t.2.1))).get? i))
      (sel.filterMap (fun i => (T.map (fun t => (t.1, t.2.2))).get? i)) := by
  refine bandOK_sub h ?_ ?_
  · intro x hx
    rcases List.mem_filterMap.mp hx with ⟨i, hi, hget⟩
    exact List.get?_mem hget
  · intro x hx
    rcases List.mem_filterMap.mp hx with ⟨i, hi, hget⟩
    exact List.get?_mem hget

theorem bandOK_ciCompactedOf (ops : ExtOps) (distributionName : String)
    (params : List ℚ) (qmaxF : List ℚ) (pci : List ℚ)
    (rowsOk : List (List (Option ℚ))) :
    BandOK (ciCompactedOf ops distributionName params qmaxF pci rowsOk).1
      (ciCompactedOf ops distributionName params qmaxF pci rowsOk).2 := by
  have hbase : BandOK
      ((ciTempTriplesOf ops distributionName params qmaxF pci rowsOk).map
        (fun t => (t.1, t.2.1)))
      ((ciTempTriplesOf ops distributionName params qmaxF pci rowsOk).map
        (fun t => (t.1, t.2.2))) :=
    bandOK_mapPairs _
      (keys_ciTempTriplesOf ops distributionName params qmaxF pci rowsOk)
      (fun t ht => le_of_lt (guard_ciTempTriplesOf ops distributionName
        params qmaxF pci rowsOk t ht).1)
  unfold ciCompactedOf
  by_cases hc : 300 < ((ciTempTriplesOf ops distributionName params qmaxF
      pci rowsOk).map (fun t => (t.1, t.2.1))).length
  · rw [if_pos hc]
    dsimp only
    apply bandOK_compactSelT
    exact hbase
  · rw [if_neg hc]
    dsimp only
    exact hbase

theorem bandOK_ciAssembleOf (ops : ExtOps) (distributionName : String)
    (params : List ℚ) (qmaxF : List ℚ) (pci : List ℚ)
    (rowsOk : List (List (Option ℚ))) :
    BandOK (ciAssembleOf ops distributionName params qmaxF pci rowsOk).1
      (ciAssembleOf ops distributionName params qmaxF pci rowsOk).2 := by
  rw [ciAssembleOf_eq]
  refine bandOK_gapInterpolate ?_
  refine bandOK_sub (bandOK_ciCompactedOf ops distributionName params
    qmaxF pci rowsOk) ?_ ?_
  · intro x hx
    exact (List.perm_insertionSort _ _).subset hx
  · intro x hx
    exact (List.perm_insertionSort _ _).subset hx

theorem bandOK_ciBandOf (ops : ExtOps) (distributionName : String)
    (params : List ℚ) (qmaxF : List ℚ) (pci : List ℚ)
    (rowsOk : List (List (Option ℚ))) (band : Band)
    (h : ciBandOf ops distributionName params qmaxF pci rowsOk =
      some band) :
    BandOK band.1 band.2 := by
  unfold ciBandOf at h
  simp only [] at h
  split at h
  · exact absurd h (by simp)
  · have hb := Option.some.inj h
    rw [← hb]
    exact bandOK_ciAssembleOf ops distributionName params qmaxF pci rowsOk

theorem bandOK_ciSection (ops : ExtOps) (distributionName : String)
    (params qmaxF pPercentFixed : List ℚ)
    (rows : List (Option (List (Option ℚ)))) (band : Band)
    (h : ciSection ops distributionName params qmaxF pPercentFixed rows =
      some band) : BandOK band.1 band.2 := by
  rw [ciSection_unfold] at h
  split at h
  · exact absurd h (by simp)
  split at h
  · exact absurd h (by simp)
  exact bandOK_ciBandOf ops distributionName params qmaxF _ _ band h

/-- Oracle for the C3 witness: the quantile oracle returns the constant
value 100, so the theoretical reference of the confidence band is 100 at
every position. -/
def opsW : ExtOps :=
  { sqrtQ := fun q => if q = 0 then 0 else 1
    logQ := fun _ => 1
    expQ := fun _ => 1
    log10Q := fun _ => 0
    pow10Q := fun _ => 1
    piQ := 355 / 113
    ppf := fun _ _ _ => some 100
    mleFit := fun _ _ => none
    skew := fun _ => none }

/-- Successful bootstrap rows of the C3 witness: one constant row at 90
and one at 110, over six probability positions. -/
def c3RowsOk : List (List (Option ℚ)) :=
  [[some 90, some 90, some 90, some 90, some 90, some 90],
   [some 110, some 110, some 110, some 110, some 110, some 110]]

/-- Confidence band computed by the C3 witness run. -/
def c3BandW : Band :=
  ([(10, 181/2), (12, 181/2), (14, 181/2), (16, 181/2), (18, 181/2),
    (20, 181/2)],
   [(10, 219/2), (12, 219/2), (14, 219/2), (16, 219/2), (18, 219/2),
    (20, 219/2)])

theorem pctLowEval : percentileNan (5 / 2) [90, 110] = some (181 / 2) := by
  norm_num [percentileNan, List.insertionSort, List.orderedInsert]

theorem pctUpEval : percentileNan (195 / 2) [90, 110] =
    some (219 / 2) := by
  norm_num [percentileNan, List.insertionSort, List.orderedInsert]

theorem strNG : (("norm" : String) = "gumbel") = False := by decide

theorem strNL : (("norm" : String) = "lognorm") = False := by decide

theorem lookup_cons_self (k v : ℚ) (l : List (ℚ × ℚ)) :
    ((k, v) :: l).lookup k = some v := by
  simp [List.lookup]

theorem lookup_cons_ne {p k : ℚ} (v : ℚ) (l : List (ℚ × ℚ)) (h : p ≠ k) :
    ((k, v) :: l).lookup p = l.lookup p := by
  simp [List.lookup, beq_eq_false_iff_ne.mpr h]

theorem c3evPci : ciPciOf [10, 12, 14, 16, 18, 20] =
    [10, 12, 14, 16, 18, 20] := by
  norm_num [ciPciOf]

theorem c3evTheo : ciTheoOf opsW "norm" [0] [10, 12, 14, 16, 18, 20] =
    [some 100, some 100, some 100, some 100, some 100, some 100] := by
  norm_num [ciTheoOf, opsW, List.range_succ]

theorem c3evLower : ciLowerOf [10, 12, 14, 16, 18, 20] c3RowsOk =
    [some (181/2), some (181/2), some (181/2), some (181/2), some (181/2),
     some (181/2)] := by
  norm_num [ciLowerOf, columnOf, c3RowsOk, List.range_succ, pctLowEval,
    List.getElem?_cons_succ, List.getElem?_cons_zero, List.filterMap_cons,
    List.filterMap_nil]

theorem c3evUpper : ciUpperOf [10, 12, 14, 16, 18, 20] c3RowsOk =
    [some (219/2), some (219/2), some (219/2), some (219/2), some (219/2),
     some (219/2)] := by
  norm_num [ciUpperOf, columnOf, c3RowsOk, List.range_succ, pctUpEval,
    List.getElem?_cons_succ, List.getElem?_cons_zero, List.filterMap_cons,
    List.filterMap_nil]

theorem c3evSwapped : ciSwappedOf opsW "norm" [0] [10, 12, 14, 16, 18, 20]
      c3RowsOk =
    [(some (181/2), some (219/2)), (some (181/2), some (219/2)),
     (some (181/2), some (219/2)), (some (181/2), some (219/2)),
     (some (181/2), some (219/2)), (some (181/2), some (219/2))] := by
  norm_num [ciSwappedOf, c3evTheo, c3evLower, c3evUpper, swapPair, strNG,
    List.range_succ, List.getElem?_cons_succ, List.getElem?_cons_zero]

theorem c3evMask : ciValidMaskOf opsW "norm" [0] [50, 60, 70]
      [10, 12, 14, 16, 18, 20] c3RowsOk =
    [true, true, true, true, true, true] := by
  norm_num [ciValidMaskOf, c3evTheo, c3evSwapped, ciValidAt,
    weibullPositions, zoneWidthFactor, zoneUpperFactor, minLowerFactor,
    strNG, strNL, List.range_succ, List.getElem?_cons_succ,
    List.getElem?_cons_zero, List.min?, List.max?]

theorem c3evLowerPts : ciLowerPointsOf opsW "norm" [0] [50, 60, 70]
      [10, 12, 14, 16, 18, 20] c3RowsOk =
    [(10, 181/2), (12, 181/2), (14, 181/2), (16, 181/2), (18, 181/2),
     (20, 181/2)] := by
  norm_num [ciLowerPointsOf, c3evSwapped, c3evMask, List.range_succ,
    List.getElem?_cons_succ, List.getElem?_cons_zero, List.filterMap_cons,
    List.filterMap_nil, List.insertionSort, List.orderedInsert]

theorem c3evUpperPts : ciUpperPointsOf opsW "norm" [0] [50, 60, 70]
      [10, 12, 14, 16, 18, 20] c3RowsOk =
    [(10, 219/2), (12, 219/2), (14, 219/2), (16, 219/2), (18, 219/2),
     (20, 219/2)] := by
  norm_num [ciUpperPointsOf, c3evSwapped, c3evMask, List.range_succ,
    List.getElem?_cons_succ, List.getElem?_cons_zero, List.filterMap_cons,
    List.filterMap_nil, List.insertionSort, List.orderedInsert]

theorem c3evCommon : ciCommonPOf opsW "norm" [0] [50, 60, 70]
      [10, 12, 14, 16, 18, 20] c3RowsOk =
    [10, 12, 14, 16, 18, 20] := by
  norm_num [ciCommonPOf, c3evLowerPts, c3evUpperPts, sortedSet,
    dedupSorted, List.insertionSort, List.orderedInsert, List.filter_cons,
    List.filter_nil]

theorem c3evTriples : ciTempTriplesOf opsW "norm" [0] [50, 60, 70]
      [10, 12, 14, 16, 18, 20] c3RowsOk =
    [(10, 181/2, 219/2), (12, 181/2, 219/2), (14, 181/2, 219/2),
     (16, 181/2, 219/2), (18, 181/2, 219/2), (20, 181/2, 219/2)] := by
  norm_num [ciTempTriplesOf, c3evLowerPts, c3evUpperPts, c3evCommon,
    lookup_cons_self, lookup_cons_ne, List.filterMap_cons,
    List.filterMap_nil]

theorem c3evCompacted : ciCompactedOf opsW "norm" [0] [50, 60, 70]
      [10, 12, 14, 16, 18, 20] c3RowsOk =
    ([(10, 181/2), (12, 181/2), (14, 181/2), (16, 181/2), (18, 181/2),
      (20, 181/2)],
     [(10, 219/2), (12, 219/2), (14, 219/2), (16, 219/2), (18, 219/2),
      (20, 219/2)]) := by
  norm_num [ciCompactedOf, c3evTriples]

theorem c3evAssemble : ciAssembleOf opsW "norm" [0] [50, 60, 70]
      [10, 12, 14, 16, 18, 20] c3RowsOk = c3BandW := by
  rw [ciAssembleOf_eq, c3evCompacted]
  norm_num [gapInterpolate, gapCommonOf, gapNoGapBand, c3BandW, sortedSet,
    dedupSorted, List.insertionSort, List.orderedInsert, List.filter_cons,
    List.filter_nil, List.zip, List.zipWith, List.any, lookup_cons_self,
    lookup_cons_ne]

theorem c3evBandOf : ciBandOf opsW "norm" [0] [50, 60, 70]
      [10, 12, 14, 16, 18, 20] c3RowsOk = some c3BandW := by
  norm_num [ciBandOf, c3evMask, c3evAssemble, List.filter_cons,
    List.filter_nil]

theorem c3SectionEval : ciSection opsW "norm" [0] [50, 60, 70]
      [10, 12, 14, 16, 18, 20]
      [some [some 90, some 90, some 90, some 90, some 90, some 90],
       some [some 110, some 110, some 110, some 110, some 110,
             some 110]] = some c3BandW := by
  rw [ciSection_unfold]
  norm_num [c3evPci, List.filterMap_cons, List.filterMap_nil]
  exact c3evBandOf

/-- C3: every non-null confidence band of a successful
`compute_frequency_curve` run satisfies the band invariant — for every
probability key present in both the lower and upper sequences, the lower
value is at most the upper value; the same holds for the
confidence-interval stage `ciSection` in isolation.  The invariant is
established by the `lower < upper` guard of the matching step, preserved
through compaction, re-sorting and gap interpolation, with the swap pass
having already ordered each surviving pair. -/
theorem c3_band_invariant :
    (∀ (ops : ExtOps) (series : List (Option ℚ))
      (distributionName aggFunc method : String)
      (rows : List (Option (List (Option ℚ)))) (r : FreqResult)
      (band : Band),
      computeFrequencyCurve ops series distributionName aggFunc method
        rows = .ok (.full r) →
      r.confidence_intervals = some band →
      BandOK band.1 band.2) ∧
    (∀ (ops : ExtOps) (distributionName : String)
      (params qmaxF pPercentFixed : List ℚ)
      (rows : List (Option (List (Option ℚ)))) (band : Band),
      ciSection ops distributionName params qmaxF pPercentFixed rows =
        some band →
      BandOK band.1 band.2) := by
  constructor
  · intro ops series distributionName aggFunc method rows r band h hci
    obtain ⟨params, hsel, hr, hn⟩ := compute_full_inv h
    rw [hr, fullResult_ci_def] at hci
    split at hci
    · exact bandOK_ciSection ops distributionName params
        (validValuesOf series) _ rows band hci
    · exact absurd hci (by simp)
  · intro ops distributionName params qmaxF pPercentFixed rows band h
    exact bandOK_ciSection ops distributionName params qmaxF
      pPercentFixed rows band h

/-- Witness for C3: a six-position band with constant bootstrap rows 90
and 110; the computed band has lower bounds 90.5 and upper bounds 109.5
and satisfies the invariant. -/
theorem c3_witness :
    ciSection opsW "norm" [0] [50, 60, 70] [10, 12, 14, 16, 18, 20]
        [some [some 90, some 90, some 90, some 90, some 90, some 90],
         some [some 110, some 110, some 110, some 110, some 110,
               some 110]] = some c3BandW ∧
      BandOK c3BandW.1 c3BandW.2 :=
  ⟨c3SectionEval,
   c3_band_invariant.2 opsW "norm" [0] [50, 60, 70]
     [10, 12, 14, 16, 18, 20]
     [some [some 90, some 90, some 90, some 90, some 90, some 90],
      some [some 110, some 110, some 110, some 110, some 110,
            some 110]] c3BandW c3SectionEval⟩

/-! ### Claim C10 -/

theorem noNanInf_pyList_iff (l : List PyVal) :
    noNanInf (.pyList l) = true ↔ ∀ v ∈ l, noNanInf v = true := by
  rw [noNanInf]
  rw [List.all_eq_true]
  constructor
  · intro h v hv
    exact h ⟨v, hv⟩ (List.mem_attach _ _)
  · intro h x hx
    exact h x.1 x.2

theorem noNanInf_pyDict_iff (l : List (String × PyVal)) :
    noNanInf (.pyDict l) = true ↔ ∀ e ∈ l, noNanInf e.2 = true := by
  rw [noNanInf]
  rw [List.all_eq_true]
  constructor
  · intro h e he
    exact h ⟨e, he⟩ (List.mem_attach _ _)
  · intro h x hx
    exact h x.1 x.2

theorem noNanInf_convert_bounded : ∀ (n : Nat) (v : PyVal), sizeOf v ≤ n →
    noNanInf (convertToPythonType v) = true := by
  intro n
  induction n with
  | zero =>
      intro v hv
      cases v <;> simp at hv
  | succ n ih =>
      intro v hv
      cases v with
      | pyInt m => simp [convertToPythonType, noNanInf]
      | pyFloat q => simp [convertToPythonType, noNanInf]
      | pyNan => simp [convertToPythonType, noNanInf]
      | pyInf => simp [convertToPythonType, noNanInf]
      | pyNone => simp [convertToPythonType, noNanInf]
      | pyStr s => simp [convertToPythonType, noNanInf]
      | pyList l =>
          rw [convertToPythonType]
          rw [noNanInf_pyList_iff]
          intro w hw
          rcases List.mem_map.mp hw with ⟨x, hx, hxe⟩
          rw [← hxe]
          refine ih x.1 ?_
          have hmem : x.1 ∈ l := x.2
          have hsz := List.sizeOf_lt_of_mem hmem
          simp at hv
          omega
      | pyDict l =>
          rw [convertToPythonType]
          rw [noNanInf_pyDict_iff]
          intro e he
          rcases List.mem_map.mp he with ⟨x, hx, hxe⟩
          rw [← hxe]
          refine ih x.1.2 ?_
          have hmem : x.1 ∈ l := x.2
          have hsz := List.sizeOf_lt_of_mem hmem
          simp at hv
          cases hx1 : x.1 with
          | mk a b =>
              rw [hx1] at hsz
              simp at hsz
              simp only [Prod.snd]
              omega

theorem noNanInf_curvePoint (pt : ℚ × ℚ) :
    noNanInf (pyOfCurvePoint pt) = true := by
  rw [pyOfCurvePoint, noNanInf_pyDict_iff]
  intro e he
  rcases List.mem_cons.mp he with h | h
  · rw [h]; simp [noNanInf]
  · rcases List.mem_cons.mp h with h1 | h1
    · rw [h1]; simp [noNanInf]
    · simp at h1

theorem noNanInf_pyOfResult (out : FreqOut) :
    noNanInf (pyOfResult out) = true := by
  cases out with
  | empty =>
      rw [pyOfResult, noNanInf_pyDict_iff]
      intro e he
      rcases List.mem_cons.mp he with h | h
      · rw [h]
        rw [noNanInf_pyList_iff]
        intro v hv
        simp at hv
      · rcases List.mem_cons.mp h with h1 | h1
        · rw [h1]
          rw [noNanInf_pyList_iff]
          intro v hv
          simp at hv
        · simp at h1
  | full r =>
      rw [pyOfResult, noNanInf_pyDict_iff]
      intro e he
      simp only [List.mem_cons, List.not_mem_nil, or_false] at he
      rcases he with h | h | h | h | h | h | h
      · rw [h]
        rw [noNanInf_pyList_iff]
        intro v hv
        rcases List.mem_map.mp hv with ⟨pt, _, hpt⟩
        rw [← hpt]
        exact noNanInf_curvePoint pt
      · rw [h]
        rw [noNanInf_pyList_iff]
        intro v hv
        rcases List.mem_map.mp hv with ⟨pt, _, hpt⟩
        rw [← hpt]
        exact noNanInf_curvePoint pt
      · rw [h]
        cases hci : r.confidence_intervals with
        | none => simp [noNanInf]
        | some b =>
            rw [noNanInf_pyDict_iff]
            intro e2 he2
            rcases List.mem_cons.mp he2 with h2 | h2
            · rw [h2]
              rw [noNanInf_pyList_iff]
              intro v hv
              rcases List.mem_map.mp hv with ⟨pt, _, hpt⟩
              rw [← hpt]
              exact noNanInf_curvePoint pt
            · rcases List.mem_cons.mp h2 with h3 | h3
              · rw [h3]
                rw [noNanInf_pyList_iff]
                intro v hv
                rcases List.mem_map.mp hv with ⟨pt, _, hpt⟩
                rw [← hpt]
                exact noNanInf_curvePoint pt
              · simp at h3
      · rw [h]
        rw [noNanInf_pyDict_iff]
        intro e2 he2
        simp only [List.mem_cons, List.not_mem_nil, or_false] at he2
        rcases he2 with h2 | h2 | h2 | h2 | h2 <;> rw [h2]
        · simp [noNanInf]
        · simp [noNanInf]
        · simp [noNanInf]
        · cases hcs : r.statistics.cs <;> simp [pyOfOpt, noNanInf]
        · simp [noNanInf]
      · rw [h]
        rw [pyOfParams, noNanInf_pyDict_iff]
        intro e2 he2
        simp only [List.mem_cons, List.not_mem_nil, or_false] at he2
        rcases he2 with h2 | h2 | h2 <;> rw [h2]
        · cases hsh : r.parameters.shape with
          | none => simp [noNanInf]
          | some lsh =>
              simp only
              rw [noNanInf_pyList_iff]
              intro v hv
              rcases List.mem_map.mp hv with ⟨q, _, hq⟩
              rw [← hq]
              simp [noNanInf]
        · simp [noNanInf]
        · simp [noNanInf]
      · rw [h]
        simp [noNanInf]
      · rw [h]
        rw [noNanInf_pyList_iff]
        intro v hv
        rcases List.mem_map.mp hv with ⟨w, _, hw⟩
        rw [← hw]
        simp [pyOfWarning, noNanInf]

/-- C10: the recursive conversion `_convert_to_python_type` leaves no NaN
or infinite numeric leaf in any value tree (each such leaf becomes
`None`), and every structure returned by a successful
`compute_frequency_curve` run contains only finite numbers, `None`,
strings, lists and dicts. -/
theorem c10_type_conversion :
    (∀ v : PyVal, noNanInf (convertToPythonType v) = true) ∧
    (∀ (ops : ExtOps) (series : List (Option ℚ))
      (distributionName aggFunc method : String)
      (rows : List (Option (List (Option ℚ)))) (out : FreqOut),
      computeFrequencyCurve ops series distributionName aggFunc method
        rows = .ok out →
      noNanInf (pyOfResult out) = true) := by
  constructor
  · intro v
    exact noNanInf_convert_bounded (sizeOf v) v le_rfl
  · intro ops series distributionName aggFunc method rows out h
    exact noNanInf_pyOfResult out

/-- Witness for C10: the conversion replaces NaN and Inf leaves by `None`
in a sample tree, and the flat-series run of the engine yields a
structure free of non-finite leaves. -/
theorem c10_witness :
    noNanInf (convertToPythonType
      (.pyList [.pyNan, .pyInf, .pyFloat 1, .pyDict [("x", .pyNan)]])) =
        true ∧
    noNanInf (pyOfResult
      (.full (fullResultOf opsC "gumbel" [4, 4, 4] [4, 0] []))) = true :=
  ⟨c10_type_conversion.1
    (.pyList [.pyNan, .pyInf, .pyFloat 1, .pyDict [("x", .pyNan)]]),
   c10_type_conversion.2 opsC [some 4, some 4, some 4] "gumbel" "max"
     "mom" [] (.full (fullResultOf opsC "gumbel" [4, 4, 4] [4, 0] []))
     (compute_flat opsC 4 (by norm_num) (by decide) [])⟩
